import Mathlib

/-!
Verification development for the Sunbird-MCP content-graph resolver.

The definitions below are a shallow embedding of the Python sources:
  * src/sunbird_mcp/src/api/sandbox_content/api.py  (SandboxContentProcessor)
  * src/sunbird_mcp/src/api/content/api.py          (ContentProcessor, fetch_and_filter)
  * src/sunbird_mcp/src/api/content/validation.py   (hex-suffix content id validator)
  * src/sunbird_mcp/src/utils/content_validation.py (digits-suffix content id validator)
  * src/diksha_mcp/src/server.py                    (read_diksha_content flow)

Modelling boundaries, stated once here:
  * strings are sequences of characters; Python `str.isdigit` is modelled as
    ASCII decimal digits (the ids in this repository use only ASCII);
  * JSON metadata records are modelled by the structure `RawContent`, whose
    fields capture exactly the keys the code reads; `leafNodes` is modelled as
    a plain list (absent = empty list, matching `.get("leafNodes", [])`);
  * the upstream service is an association list `Env` from identifier to the
    outcome of one HTTP read; an identifier outside the list behaves as a 404;
  * exact log/error message texts are abbreviated where no theorem depends on
    them.
-/

namespace SunbirdMCP

/-- A JSON value that is either a single string or a list of strings.  The
upstream metadata fields read by `_extract_content_item` can be either shape,
which the Python code discriminates with `isinstance(subject, list)`. -/
inductive JVal where
  | s (v : String)
  | arr (vs : List String)
deriving DecidableEq, Repr

/-- Python truthiness of a `JVal`: the empty string and the empty list are
falsy, everything else is truthy. -/
def JVal.truthy : JVal → Bool
  | .s v => v ≠ ""
  | .arr vs => vs ≠ []

/-- The Python coercion `x if isinstance(x, list) else [x] if x else []`
used in `_extract_content_item` (sandbox_content/api.py lines 165-167). -/
def JVal.coerceList : JVal → List String
  | .arr vs => vs
  | .s v => if v ≠ "" then [v] else []

/-- Python truthiness of an optional string (`None` and `""` are falsy). -/
def pyTruthyStrOpt : Option String → Bool
  | some v => v ≠ ""
  | none => false

/-- Python truthiness of an optional list (`None` and `[]` are falsy). -/
def pyTruthyListOpt : Option (List String) → Bool
  | some l => l ≠ []
  | none => false

/-- The metadata record `result.content` returned by the upstream read
endpoint, restricted to the keys the repository reads.  `Option` marks keys
whose absence the code observes (`in content`, `.get(...)` with `None`
default); keys read with a constant default are stored with that default. -/
structure RawContent where
  identifier : String := ""
  name : String := ""
  previewUrl : Option String := none
  artifactUrl : Option String := none
  mimeType : String := ""
  primaryCategory : String := ""
  subject : Option JVal := none
  se_subjects : Option JVal := none
  gradeLevel : Option JVal := none
  se_gradeLevels : Option JVal := none
  medium : Option JVal := none
  se_mediums : Option JVal := none
  board : Option String := none
  se_boards : Option (List String) := none
  lastPublishedOn : Option String := none
  streamingUrl : Option String := none
  leafNodes : List String := []
deriving DecidableEq, Repr

/-- `models/sandbox_content_models.py` `SandboxContentItem`. -/
structure SandboxContentItem where
  identifier : String
  name : String
  previewUrl : Option String
  artifactUrl : Option String
  mimeType : String
  primaryCategory : String
  subject : List String
  gradeLevel : List String
  medium : List String
  board : Option String
  lastPublishedOn : Option String
deriving DecidableEq, Repr

/-- `settings.PDF_MIME_TYPE` (config.py line 144). -/
def PDF_MIME_TYPE : String := "application/pdf"

/-- `settings.EXCLUDED_MIME_TYPE` (config.py line 148). -/
def EXCLUDED_MIME_TYPE : String := "application/vnd.ekstep.ecml-archive"

/-- The collection container mime type tested in
`SandboxContentProcessor._process_content` (sandbox_content/api.py line 93). -/
def COLLECTION_MIME_TYPE : String := "application/vnd.ekstep.content-collection"

/-- Outcome of one HTTP read of an identifier, as interpreted by the code:
HTTP 200 with a parsed `result.content` record, a non-200 status with a
textual body, or a raised transport/parse exception. -/
inductive FetchResult where
  | ok (content : RawContent)
  | status (code : Nat) (body : String)
  | exn (msg : String)
deriving DecidableEq, Repr

/-- The upstream service: a finite association list from identifier to fetch
outcome.  This is the "finite content graph" of the claims. -/
def Env : Type := List (String × FetchResult)

/-- One network read of `content_id`.  An identifier with no record behaves
as HTTP 404 (`not found`). -/
def envFetch (env : Env) (content_id : String) : FetchResult :=
  (List.lookup content_id env).getD (.status 404 "")

/-- `_extract_content_item` (sandbox_content/api.py lines 138-173), written
line-for-line after the Python.  The Python `try/except` has no failing path
on this data model (every field access is total), so the function is total. -/
def extract_content_item (content : RawContent) : SandboxContentItem :=
  -- subject = content.get("subject", [])
  -- if not subject and "se_subjects" in content: subject = content["se_subjects"]
  let subject0 := content.subject.getD (JVal.arr [])
  let subject := if ¬ subject0.truthy ∧ content.se_subjects.isSome
                 then content.se_subjects.getD (JVal.arr []) else subject0
  let grade0 := content.gradeLevel.getD (JVal.arr [])
  let grade := if ¬ grade0.truthy ∧ content.se_gradeLevels.isSome
               then content.se_gradeLevels.getD (JVal.arr []) else grade0
  let medium0 := content.medium.getD (JVal.arr [])
  let medium := if ¬ medium0.truthy ∧ content.se_mediums.isSome
                then content.se_mediums.getD (JVal.arr []) else medium0
  -- board = content.get("board")
  -- if not board and "se_boards" in content and content["se_boards"]: board = content["se_boards"][0]
  let board0 := content.board
  let board := if ¬ pyTruthyStrOpt board0 ∧ pyTruthyListOpt content.se_boards
               then (match content.se_boards with | some (b :: _) => some b | _ => board0)
               else board0
  { identifier := content.identifier
    name := content.name
    previewUrl := content.previewUrl
    artifactUrl := content.artifactUrl
    mimeType := content.mimeType
    primaryCategory := content.primaryCategory
    subject := subject.coerceList
    gradeLevel := grade.coerceList
    medium := medium.coerceList
    board := board
    lastPublishedOn := content.lastPublishedOn }

/-- `fetch_and_filter` (content/api.py lines 45-66; identically diksha
server.py lines 337-359 with the same constants inlined): fetch one node and
append its `streamingUrl` to the accumulator exactly when the filter predicate
passes; any non-200 status or exception is logged and swallowed, leaving the
accumulator unchanged. -/
def fetch_and_filter (env : Env) (content_id : String) (artifact_urls : List String) :
    List String :=
  match envFetch env content_id with
  | .ok content =>
      if content.mimeType ≠ EXCLUDED_MIME_TYPE ∧ content.mimeType = PDF_MIME_TYPE ∧
         pyTruthyStrOpt content.streamingUrl
      then artifact_urls ++ [content.streamingUrl.getD ""]
      else artifact_urls
  | .status _ _ => artifact_urls
  | .exn _ => artifact_urls

/-- `retrieve_content_ids` (content/api.py lines 26-43): read the root record
and return its `leafNodes` (default `[]`), or an error string. -/
def retrieve_content_ids (env : Env) (content_id : String) :
    Option (List String) × Option String :=
  match envFetch env content_id with
  | .ok c => (some c.leafNodes, none)
  | .status code body =>
      (none, some ("Sunbird API request failed with status " ++ toString code ++ ": " ++ body))
  | .exn m => (none, some ("Failed to process request: " ++ m))

/-- The payload shape built by `ContentProcessor.execute`
(content/api.py lines 103-118). -/
structure ContentPayload where
  artifact_urls : List String
  count : Nat
  message : String
  error : Option String
deriving DecidableEq, Repr

/-- `ContentProcessor.execute` (content/api.py lines 103-118).  The
concurrent `run_concurrent_fetches` fan-out is modelled by its sequential
fold; the accumulated url list is the same collection of appends. -/
def contentExecute (env : Env) (content_id : String) : ContentPayload :=
  match retrieve_content_ids env content_id with
  | (_, some e) =>
      { artifact_urls := [], count := 0, message := "Failed to retrieve content IDs", error := some e }
  | (none, none) =>
      { artifact_urls := [], count := 0, message := "No content found",
        error := some "No content IDs found for the given content_id" }
  | (some ids, none) =>
      if ids = [] then
        { artifact_urls := [], count := 0, message := "No content found",
          error := some "No content IDs found for the given content_id" }
      else
        let urls := ids.foldl (fun acc c => fetch_and_filter env c acc) []
        { artifact_urls := urls, count := urls.length,
          message := "Successfully retrieved artifact URLs for non-ECML content", error := none }

/-! ### The sandbox recursive resolver, sequential semantics

`SandboxContentProcessor._process_content` / `_process_child_nodes`
(sandbox_content/api.py lines 79-117).  The mutable `self.visited_ids` /
`self.content_items` become explicit state; the `asyncio.gather` fan-out is
modelled by the sequential left-to-right fold (all state mutations in the
Python happen atomically between awaits).  Recursion is fuelled; the fuel is
an artifact of the embedding and `envFuel` is proved sufficient below. -/

/-- The per-operation mutable state: `self.visited_ids` (insertion-ordered
list, newest first) and `self.content_items`. -/
structure TravState where
  visited : List String
  items : List SandboxContentItem
deriving DecidableEq, Repr

/-- Result of one `_process_content` call: a normal return with the updated
state, a propagated Python exception, or fuel exhaustion (embedding artifact,
never reached at `envFuel`). -/
inductive TravRes where
  | ok (st : TravState)
  | raised (msg : String)
  | fuelOut
deriving DecidableEq, Repr

/-- `_process_content` (sandbox_content/api.py lines 79-106):
dedup against `visited_ids`, fetch, recurse into collections via
`_process_child_nodes`, append extracted leaf items otherwise.
A 404 or non-200 status yields `None` from `_fetch_content` and a quiet
return; a transport exception is re-raised (lines 104-106, 134-136). -/
def process_content (env : Env) : Nat → TravState → String → TravRes
  | 0, _, _ => .fuelOut
  | Nat.succ fuel, st, content_id =>
    if content_id ∈ st.visited then .ok st
    else
      let st1 : TravState := { st with visited := content_id :: st.visited }
      match envFetch env content_id with
      | .exn m => .raised m
      | .status _ _ => .ok st1
      | .ok content =>
        if content.mimeType = COLLECTION_MIME_TYPE then
          if content.leafNodes = [] then .ok st1
          else
            content.leafNodes.foldl
              (fun acc node_id =>
                match acc with
                | .ok st2 => process_content env fuel st2 node_id
                | other => other)
              (.ok st1)
        else
          .ok { st1 with items := st1.items ++ [extract_content_item content] }

/-- Fuel sufficient for any traversal of `env`: the visited set can only grow
by identifiers, and only identifiers with a record can recurse
(`process_content_enough_fuel` below). -/
def envFuel (env : Env) : Nat := env.length + 1

/-- The payload shape built by `SandboxContentProcessor.execute`
(sandbox_content/api.py lines 59-77). -/
structure SandboxPayload where
  content : List SandboxContentItem
  count : Nat
  message : String
  success : Bool
  error : Option String
deriving DecidableEq, Repr

/-- `SandboxContentProcessor.execute` (sandbox_content/api.py lines 59-77):
run the traversal from a fresh state; any escaping exception is caught and
turned into a failure payload with an empty `content` list.  The `fuelOut`
branch is unreachable at `envFuel` and mirrors the failure shape. -/
def sandboxExecute (env : Env) (content_id : String) : SandboxPayload :=
  match process_content env (envFuel env) { visited := [], items := [] } content_id with
  | .ok st =>
      { content := st.items, count := st.items.length,
        message := "Successfully retrieved content items", success := true, error := none }
  | .raised m =>
      { content := [], count := 0, message := "Failed to retrieve content: " ++ m,
        success := false, error := some m }
  | .fuelOut =>
      { content := [], count := 0, message := "Failed to retrieve content: fuel",
        success := false, error := some "fuel" }

/-! ### Identifier validators -/

/-- `content_id.startswith("do_")` on the character list: at least three
characters, the first three being `d`, `o`, `_`. -/
def pyStartsWithDo : List Char → Bool
  | c1 :: c2 :: c3 :: _ => c1 = 'd' && c2 = 'o' && c3 = '_'
  | _ => false

/-- Python `str.isdigit`: non-empty and every character a digit (ASCII
modelling boundary, see the header). -/
def pyIsDigit (l : List Char) : Bool := l ≠ [] && l.all Char.isDigit

/-- The character class `[a-f0-9]`. -/
def isLowerHex (c : Char) : Bool := c.isDigit || ('a' ≤ c && c ≤ 'f')

/-- Python `re.match` of `^[a-f0-9]{32}$`: 32 class characters, then `$`,
which in Python matches at the end of the string or just before one trailing
newline.  Hence: the string is exactly 32 hex characters, or 32 hex characters
followed by a single newline. -/
def pyMatchHex32Dollar (l : List Char) : Bool :=
  let u := if l.getLast? = some '\n' then l.dropLast else l
  u.length = 32 && u.all isLowerHex

/-- Python `re.match` of `^[0-9]+$` (after the fixed head): one or more
digits, then `$` with the same trailing-newline behaviour. -/
def pyMatchDigitsDollar (l : List Char) : Bool :=
  let u := if l.getLast? = some '\n' then l.dropLast else l
  u ≠ [] && u.all Char.isDigit

namespace UtilsValidation

/-- `validate_content_id` (utils/content_validation.py lines 9-32): requires a
non-empty string starting with `do_` whose remainder `content_id[3:]` passes
`len(content_id) > 3 and content_id[3:].isdigit()`.  Message texts abbreviated
(no theorem depends on them). -/
def validate_content_id (content_id : String) : List String :=
  let l := content_id.data
  if l = [] then ["Content ID is required"]
  else if ¬ pyStartsWithDo l then ["Content ID must start with do_"]
  else if l.length ≤ 3 || ¬ pyIsDigit (l.drop 3) then
    ["Content ID must be do_ followed by numbers"]
  else []

end UtilsValidation

namespace ContentValidation

/-- `validate_content_id` (content/validation.py lines 12-30): the suffix
`content_id[3:]` is matched against `CONTENT_ID_PATTERN = ^[a-f0-9]{32}$`. -/
def validate_content_id (content_id : String) : List String :=
  let l := content_id.data
  if l = [] then ["Content ID is required"]
  else if ¬ pyStartsWithDo l then ["Content ID must start with do_"]
  else if ¬ pyMatchHex32Dollar (l.drop 3) then ["Content ID format is invalid"]
  else []

/-- `validate_content_request` (content/validation.py lines 32-62), restricted
to the `content_id` key: present, non-blank after `strip()`, starts with
`do_`.  (The optional `fields` key does not interact with any claim.) -/
def validate_content_request (content_id : Option String) : List String :=
  match content_id with
  | none => ["content_id is required"]
  | some cid =>
    if cid.trim = "" then ["content_id must be a non-empty string"]
    else if ¬ pyStartsWithDo cid.data then ["content_id must start with do_"]
    else []

end ContentValidation

/-- The identifiers the content pipeline reads over the network, in order:
the root read of `retrieve_content_ids`, then one read per child id (each
child is fetched regardless of its outcome). -/
def contentFetchTrace (env : Env) (content_id : String) : List String :=
  match retrieve_content_ids env content_id with
  | (_, some _) => [content_id]
  | (none, none) => [content_id]
  | (some ids, none) => if ids = [] then [content_id] else content_id :: ids

/-- `BaseProcessor.process` specialised to the content api (core/base.py lines
139-174 with content/api.py): `pre_process` validates and raises on errors —
in that case `execute` never runs and nothing is fetched — otherwise `execute`
runs.  The second component lists the identifiers fetched. -/
def contentProcess (env : Env) (content_id : Option String) :
    Except (List String) ContentPayload × List String :=
  match ContentValidation.validate_content_request content_id with
  | [] =>
    match content_id with
    | some cid => (.ok (contentExecute env cid), contentFetchTrace env cid)
    | none => (.error ["content_id is required"], [])
  | errs => (.error errs, [])

/-! ### The diksha read tool -/

/-- The JSON payload returned by `read_diksha_content`: either a success
object with `artifact_urls`, `count` and `message`, or an error object. -/
inductive DikshaResult where
  | success (artifact_urls : List String) (count : Nat) (message : String)
  | error (msg : String)
deriving DecidableEq, Repr

/-- Whether the payload is an error object. -/
def DikshaResult.isError : DikshaResult → Bool
  | .error _ => true
  | _ => false

/-- The inner `retrieve_content_ids` of `read_diksha_content` (diksha
server.py lines 272-311): validate the id (empty check, then
`re.match(r"^do_[0-9]+$", ...)`) before any network activity, then read the
root.  The boolean records whether a network read happened. -/
def dikshaRetrieve (env : Env) (content_id : String) :
    (Option (List String) × Option String) × Bool :=
  if content_id.data = [] then ((none, some "content_id is required"), false)
  else if ¬ (pyStartsWithDo content_id.data &&
             pyMatchDigitsDollar (content_id.data.drop 3)) then
    ((none, some "Invalid content_id format. Must start with do_ followed by numbers"), false)
  else
    match envFetch env content_id with
    | .ok c => ((some c.leafNodes, none), true)
    | .status code body =>
        ((none, some ("DIKSHA API request failed with status " ++ toString code ++ ": " ++ body)),
         true)
    | .exn m => ((none, some ("Failed to process request: " ++ m)), true)

/-- `read_diksha_content` (diksha server.py lines 312-381).  Returns the JSON
payload and the list of identifiers read over the network.  The per-id
validation loop (lines 326-330) runs before any child fetch; its per-id
message texts are abbreviated to one representative string. -/
def read_diksha_content (env : Env) (params : Option String) : DikshaResult × List String :=
  match params with
  | none => (.error "Failed to process request", [])
  | some content_id =>
    match dikshaRetrieve env content_id with
    | ((_, some e), fetched) => (.error e, if fetched then [content_id] else [])
    | ((none, none), fetched) => (.error "Failed to process request", if fetched then [content_id] else [])
    | ((some ids, none), _) =>
      if ids = [] then (.error "content_ids list cannot be empty", [content_id])
      else if ids.any (fun cid => cid.trim = "" ||
              ¬ (pyStartsWithDo cid.data && pyMatchDigitsDollar (cid.data.drop 3))) then
        (.error "Invalid content_id format", [content_id])
      else
        let urls := ids.foldl (fun acc c => fetch_and_filter env c acc) []
        (.success urls urls.length "Successfully retrieved artifact URLs for non-ECML content",
         content_id :: ids)

/-! ### Definitions following the wording of the spec / claims
(for the refinement-style comparisons; everything above is translated from
the source). -/

/-- Modelled from the claim (C10): the simplified leaf filter without the
excluded-archive conjunct — fetch and append `streamingUrl` when the mime
type equals the PDF type and the URL is non-empty. -/
def fetchAndFilterSimple (env : Env) (content_id : String) (artifact_urls : List String) :
    List String :=
  match envFetch env content_id with
  | .ok content =>
      if content.mimeType = PDF_MIME_TYPE ∧ pyTruthyStrOpt content.streamingUrl
      then artifact_urls ++ [content.streamingUrl.getD ""]
      else artifact_urls
  | .status _ _ => artifact_urls
  | .exn _ => artifact_urls

/-- Modelled from the claim (C6): a successfully fetched node qualifies when
its content type equals the allowed PDF type, is not the excluded archive
type, and it carries a non-empty direct content URL. -/
def claimQualifies (content : RawContent) : Bool :=
  content.mimeType == PDF_MIME_TYPE && content.mimeType != EXCLUDED_MIME_TYPE &&
    pyTruthyStrOpt content.streamingUrl

/-- Modelled from the claim (C7): per-attribute normalization for an
attribute whose canonical shape is a list — prefer the generic field when it
is present and non-empty, otherwise use the prefixed variant when present;
coerce scalars to singleton lists; absent attributes give the empty list. -/
def specListAttr (generic pfxv : Option JVal) : List String :=
  match generic, pfxv with
  | some g, some p => if g.truthy then g.coerceList else p.coerceList
  | some g, none => if g.truthy then g.coerceList else []
  | none, some p => p.coerceList
  | none, none => []

/-- Modelled from the amended claim (C7): the board attribute is an optional
scalar — the generic field when non-empty, else the first element of the
prefixed list when present and non-empty, else the generic value unchanged
(so `none` when absent). -/
def specBoard (board : Option String) (se_boards : Option (List String)) : Option String :=
  if pyTruthyStrOpt board then board
  else
    match se_boards with
    | some (b :: _) => some b
    | _ => board

/-! ### C10 — the excluded-mime conjunct is redundant -/

/-- C10 (confirmed).  In the leaf-qualification predicate of
`fetch_and_filter`, the conjunct `mimeType != EXCLUDED_MIME_TYPE` is
redundant: the filter behaves identically to the simplified filter that only
requires the PDF mime type and a non-empty streaming URL, because the two
mime-type constants are distinct. -/
theorem excluded_mime_conjunct_redundant :
    (∀ env content_id artifact_urls,
        fetch_and_filter env content_id artifact_urls =
          fetchAndFilterSimple env content_id artifact_urls) ∧
      PDF_MIME_TYPE ≠ EXCLUDED_MIME_TYPE := by
  constructor
  · intro env content_id artifact_urls
    unfold fetch_and_filter fetchAndFilterSimple
    cases envFetch env content_id with
    | ok content =>
        by_cases h : content.mimeType = PDF_MIME_TYPE
        · have hne : content.mimeType ≠ EXCLUDED_MIME_TYPE := by
            rw [h]; decide
          have hd : ¬ PDF_MIME_TYPE = EXCLUDED_MIME_TYPE := by decide
          simp [h, hne, hd]
        · simp [h]
    | status code body => rfl
    | exn m => rfl
  · decide

/-! ### C7 — extraction / normalization -/

theorem JVal.coerceList_of_not_truthy (g : JVal) (h : g.truthy = false) :
    g.coerceList = [] := by
  cases g with
  | s v =>
      simp only [JVal.truthy, ne_eq, decide_not, Bool.not_eq_false'] at h
      simp [JVal.coerceList, of_decide_eq_true h]
  | arr vs =>
      simp only [JVal.truthy, ne_eq, decide_not, Bool.not_eq_false'] at h
      simp [JVal.coerceList, of_decide_eq_true h]

theorem pickCoerce_eq_specListAttr (generic pfxv : Option JVal) :
    (if ¬ (generic.getD (JVal.arr [])).truthy ∧ pfxv.isSome
     then pfxv.getD (JVal.arr []) else generic.getD (JVal.arr [])).coerceList
      = specListAttr generic pfxv := by
  cases generic with
  | none =>
    cases pfxv with
    | none => simp [specListAttr, JVal.truthy, JVal.coerceList]
    | some p => simp [specListAttr, JVal.truthy]
  | some g =>
    cases pfxv with
    | none =>
      by_cases h : g.truthy
      · simp [specListAttr, h]
      · simp only [Bool.not_eq_true] at h
        simp [specListAttr, h, JVal.coerceList_of_not_truthy g h]
    | some p =>
      by_cases h : g.truthy
      · simp [specListAttr, h]
      · simp only [Bool.not_eq_true] at h
        simp [specListAttr, h]

theorem pickBoard_eq_specBoard (bd : Option String) (sebd : Option (List String)) :
    (if ¬ pyTruthyStrOpt bd ∧ pyTruthyListOpt sebd
     then (match sebd with | some (b :: _) => some b | _ => bd) else bd)
      = specBoard bd sebd := by
  by_cases h : pyTruthyStrOpt bd
  · simp [h, specBoard]
  · simp only [Bool.not_eq_true] at h
    cases sebd with
    | none => simp [h, specBoard, pyTruthyListOpt]
    | some l =>
      cases l with
      | nil => simp [h, specBoard, pyTruthyListOpt]
      | cons b bs => simp [h, specBoard, pyTruthyListOpt]

/-- C7 amended (corrected).  For every raw metadata record, extraction
normalizes the three list-shaped attributes (subject, grade level, medium)
exactly as the claim states — generic field preferred when present and
non-empty, else the prefixed variant, scalars coerced to singleton lists,
absent attributes becoming the empty list — while the board attribute is an
optional scalar: generic `board` when non-empty, else the first element of
`se_boards` when present and non-empty, else the generic value unchanged
(`none`, not a list, when absent).  Extraction is total (no failure mode). -/
theorem extract_content_item_normalizes (content : RawContent) :
    (extract_content_item content).subject =
        specListAttr content.subject content.se_subjects ∧
      (extract_content_item content).gradeLevel =
        specListAttr content.gradeLevel content.se_gradeLevels ∧
      (extract_content_item content).medium =
        specListAttr content.medium content.se_mediums ∧
      (extract_content_item content).board =
        specBoard content.board content.se_boards := by
  refine ⟨?_, ?_, ?_, ?_⟩
  · exact pickCoerce_eq_specListAttr content.subject content.se_subjects
  · exact pickCoerce_eq_specListAttr content.gradeLevel content.se_gradeLevels
  · exact pickCoerce_eq_specListAttr content.medium content.se_mediums
  · exact pickBoard_eq_specBoard content.board content.se_boards

/-- C7 counterexample.  The claim states that absent attributes normalize to
an empty list, never null/undefined, for all four attributes including board;
but on a record with no board information the extracted board is `none`
(JSON null) — the canonical board shape is `Optional[str]`, not a list
(sandbox_content_models.py line 27, sandbox_content/api.py lines 154-156). -/
theorem extract_absent_board_is_none :
    (extract_content_item {}).board = none ∧
      (extract_content_item { se_boards := some [] }).board = none := by
  exact ⟨rfl, rfl⟩

/-! ### C6 — leaf qualification -/

/-- C6 amended (corrected).  In the artifact-URL flavor (`fetch_and_filter`,
content/api.py lines 45-66 and diksha server.py lines 337-359) a successfully
fetched node contributes exactly its streaming URL iff the claim's predicate
holds (PDF type, not the excluded archive type, non-empty direct URL), and a
non-qualifying node is silently dropped (accumulator unchanged, no error).
The sandbox resolver, by contrast, appends an extracted item for every
successfully fetched non-collection node unconditionally — no mime/URL filter
(sandbox_content/api.py lines 98-102). -/
theorem leaf_filter_characterization :
    (∀ env content_id artifact_urls content, envFetch env content_id = .ok content →
        fetch_and_filter env content_id artifact_urls =
          artifact_urls ++
            (if claimQualifies content then [content.streamingUrl.getD ""] else [])) ∧
      (∀ env fuel st content_id content, envFetch env content_id = .ok content →
          content.mimeType ≠ COLLECTION_MIME_TYPE → content_id ∉ st.visited →
          process_content env (fuel + 1) st content_id =
            .ok { visited := content_id :: st.visited,
                  items := st.items ++ [extract_content_item content] }) := by
  constructor
  · intro env content_id artifact_urls content h
    unfold fetch_and_filter
    rw [h]
    by_cases h1 : content.mimeType = PDF_MIME_TYPE
    · have hne : content.mimeType ≠ EXCLUDED_MIME_TYPE := by rw [h1]; decide
      have hd : ¬ PDF_MIME_TYPE = EXCLUDED_MIME_TYPE := by decide
      by_cases h2 : pyTruthyStrOpt content.streamingUrl
      · simp [claimQualifies, h1, hne, h2, hd]
      · simp only [Bool.not_eq_true] at h2
        simp [claimQualifies, h1, hne, h2, hd]
    · simp [claimQualifies, h1]
  · intro env fuel st content_id content h hmime hvis
    unfold process_content
    rw [if_neg hvis, h]
    dsimp only
    rw [if_neg hmime]

/-- Concrete graph for the C6 counterexample: a single leaf whose mime type
is epub (not PDF) and which has no streaming URL at all. -/
def envC6 : Env :=
  [("do_9", .ok { identifier := "nine", name := "Nine", mimeType := "application/epub" })]

/-- C6 counterexample.  The claim states a LeafItem is appended only if the
content type equals the allowed PDF type and a non-empty direct content URL
is present; but the sandbox resolver appends an item for an epub leaf with no
URL (no filter is applied on that path). -/
theorem sandbox_appends_non_pdf_leaf :
    (sandboxExecute envC6 "do_9").count = 1 ∧
      (sandboxExecute envC6 "do_9").content.map SandboxContentItem.mimeType =
        ["application/epub"] ∧
      "application/epub" ≠ PDF_MIME_TYPE := by
  refine ⟨rfl, rfl, by decide⟩

/-- PDF leaf used by the C6 witness. -/
def nodeW6pdf : RawContent :=
  { identifier := "five", mimeType := "application/pdf", streamingUrl := some "u" }

/-- Epub leaf used by the C6 witness. -/
def nodeW6epub : RawContent :=
  { identifier := "nine", name := "Nine", mimeType := "application/epub" }

/-- Environment for the C6 witness. -/
def envW6 : Env := [("do_5", .ok nodeW6pdf), ("do_9", .ok nodeW6epub)]

/-- Witness for `leaf_filter_characterization` at concrete inputs. -/
theorem leaf_filter_characterization_witness :
    fetch_and_filter envW6 "do_5" ["x"] =
        ["x"] ++ (if claimQualifies nodeW6pdf then [nodeW6pdf.streamingUrl.getD ""] else []) ∧
      process_content envW6 1 { visited := [], items := [] } "do_9" =
        .ok { visited := ["do_9"], items := [extract_content_item nodeW6epub] } :=
  ⟨leaf_filter_characterization.1 envW6 "do_5" ["x"] nodeW6pdf (by rfl),
   leaf_filter_characterization.2 envW6 0 { visited := [], items := [] } "do_9" nodeW6epub
     (by rfl) (by decide) (by decide)⟩

/-! ### C8 — identifier validation -/

theorem pyMatchHex32Dollar_iff (t : List Char) :
    pyMatchHex32Dollar t = true ↔
      ∃ h : List Char, (t = h ∨ t = h ++ ['\n']) ∧ h.length = 32 ∧ h.all isLowerHex = true := by
  unfold pyMatchHex32Dollar
  by_cases hl : t.getLast? = some '\n'
  · rw [if_pos hl]
    simp only [Bool.and_eq_true, decide_eq_true_eq]
    constructor
    · rintro ⟨hlen, hall⟩
      exact ⟨t.dropLast, Or.inr (List.dropLast_append_getLast? '\n' hl).symm, hlen, hall⟩
    · rintro ⟨hx, hcase, hlen, hall⟩
      rcases hcase with heq | heq
      · have ht : t.dropLast ++ ['\n'] = t := List.dropLast_append_getLast? '\n' hl
        rw [← heq, ← ht, List.all_append] at hall
        simp [isLowerHex] at hall
      · rw [heq, List.dropLast_concat]
        exact ⟨hlen, hall⟩
  · rw [if_neg hl]
    simp only [Bool.and_eq_true, decide_eq_true_eq]
    constructor
    · rintro ⟨hlen, hall⟩
      exact ⟨t, Or.inl rfl, hlen, hall⟩
    · rintro ⟨hx, hcase, hlen, hall⟩
      rcases hcase with heq | heq
      · rw [heq]; exact ⟨hlen, hall⟩
      · rw [heq] at hl
        exact absurd (List.getLast?_concat hx) hl

/-- C8 amended (corrected).  Characterization of both validators and of the
validation-before-fetch gate:
(1) the digits variant (utils/content_validation.py) accepts exactly the
    non-empty strings starting with `do_` whose suffix is non-empty and
    digits-only;
(2) the hex variant (content/validation.py) accepts exactly the non-empty
    strings starting with `do_` whose suffix is 32 lowercase-hex characters
    optionally followed by one trailing newline (an artifact of the `$`
    anchor of Python `re.match`, which also matches just before a final
    newline) — not only the fixed-length hexadecimal forms of the claim;
(3) in the diksha read flow, a root id that fails validation produces an
    immediate error payload and no network read happens at all. -/
theorem validate_content_id_characterization :
    (∀ i : String, UtilsValidation.validate_content_id i = [] ↔
        (i.data ≠ [] ∧ pyStartsWithDo i.data = true ∧ i.data.drop 3 ≠ [] ∧
          (i.data.drop 3).all Char.isDigit = true)) ∧
      (∀ i : String, ContentValidation.validate_content_id i = [] ↔
          (i.data ≠ [] ∧ pyStartsWithDo i.data = true ∧
            ∃ h : List Char, (i.data.drop 3 = h ∨ i.data.drop 3 = h ++ ['\n']) ∧
              h.length = 32 ∧ h.all isLowerHex = true)) ∧
      (∀ (env : Env) (content_id : String),
          (content_id.data = [] ∨
            (pyStartsWithDo content_id.data &&
              pyMatchDigitsDollar (content_id.data.drop 3)) = false) →
          (read_diksha_content env (some content_id)).1.isError = true ∧
            (read_diksha_content env (some content_id)).2 = []) := by
  refine ⟨?_, ?_, ?_⟩
  · intro i
    unfold UtilsValidation.validate_content_id
    dsimp only
    split_ifs with h0 h1 h2
    · rw [false_iff]
      rintro ⟨hne, -, -, -⟩
      exact hne h0
    · rw [false_iff]
      simp only [Bool.or_eq_true, decide_eq_true_eq] at h2
      rintro ⟨-, -, hne, hall⟩
      rcases h2 with h2 | h2
      · exact hne (List.drop_eq_nil_iff.2 h2)
      · apply h2
        simp [pyIsDigit, hne, hall]
    · simp only [Bool.or_eq_true, decide_eq_true_eq, not_or, not_not] at h2
      obtain ⟨hlen, hdig⟩ := h2
      simp only [pyIsDigit, Bool.and_eq_true, ne_eq, decide_not, Bool.not_eq_true',
        decide_eq_false_iff_not] at hdig
      exact iff_of_true rfl ⟨h0, h1, hdig.1, hdig.2⟩
    · rw [false_iff]
      rintro ⟨-, hs, -, -⟩
      exact h1 hs
  · intro i
    unfold ContentValidation.validate_content_id
    dsimp only
    split_ifs with h0 h1 h2
    · rw [false_iff]
      rintro ⟨hne, -, -⟩
      exact hne h0
    · refine iff_of_true rfl ⟨h0, h1, ?_⟩
      exact (pyMatchHex32Dollar_iff (i.data.drop 3)).1 h2
    · rw [false_iff]
      rintro ⟨-, -, hwit⟩
      exact h2 ((pyMatchHex32Dollar_iff (i.data.drop 3)).2 hwit)
    · rw [false_iff]
      rintro ⟨-, hs, -⟩
      exact h1 hs
  · intro env content_id h
    have hret : ∃ m, dikshaRetrieve env content_id = ((none, some m), false) := by
      unfold dikshaRetrieve
      rcases h with h | h
      · exact ⟨"content_id is required", by rw [if_pos h]⟩
      · by_cases h0 : content_id.data = []
        · exact ⟨"content_id is required", by rw [if_pos h0]⟩
        · exact ⟨"Invalid content_id format. Must start with do_ followed by numbers",
            by rw [if_neg h0, if_pos (by simp [h])]⟩
    obtain ⟨m, hm⟩ := hret
    unfold read_diksha_content
    dsimp only
    rw [hm]
    exact ⟨rfl, rfl⟩

/-- A `do_` id whose suffix is 32 lowercase-hex characters followed by a
trailing newline. -/
def hexNlId : String := "do_aaaaaaaaaaaaaaaaaaaaaaaaaaaaaaaa\n"

/-- C8 counterexample.  The hex-variant validator accepts an identifier whose
suffix is not fixed-length hexadecimal: 32 hex characters plus a trailing
newline pass `re.match(r'^[a-f0-9]{32}$', ...)` because the `$` anchor also
matches just before a final newline; so `validate(I)` does not accept exactly
the identifiers whose suffix matches the fixed-length hexadecimal pattern. -/
theorem hex_validator_accepts_trailing_newline :
    ContentValidation.validate_content_id hexNlId = [] ∧
      (hexNlId.data.drop 3).length ≠ 32 := by
  constructor
  · decide
  · decide

/-- Witness for `validate_content_id_characterization` at concrete inputs:
the digits validator accepts `do_123`, and an invalid diksha root id yields an
error payload with no network read. -/
theorem validate_content_id_characterization_witness :
    UtilsValidation.validate_content_id "do_123" = [] ∧
      (read_diksha_content [] (some "book")).1.isError = true ∧
      (read_diksha_content [] (some "book")).2 = [] :=
  ⟨(validate_content_id_characterization.1 "do_123").2 (by decide),
   (validate_content_id_characterization.2.2 [] "book" (Or.inr (by decide))).1,
   (validate_content_id_characterization.2.2 [] "book" (Or.inr (by decide))).2⟩

/-! ### C9 — payload contract -/

/-- The success payload of the diksha read tool carries a count equal to the
length of its url list (trivially true of error payloads). -/
def countMatches : DikshaResult → Prop
  | .success urls cnt _ => cnt = urls.length
  | .error _ => True

/-- C9 (confirmed).  Every success payload reports `count` equal to the number
of returned artifacts (diksha read tool, content processor, sandbox
processor), and an unresolvable root (non-200 upstream status) yields an
error payload carrying an error string; a malformed root also yields an error
payload in the diksha flow (part 3 of
`validate_content_id_characterization`). -/
theorem resolution_payload_contract :
    (∀ (env : Env) (params : Option String),
        countMatches (read_diksha_content env params).1) ∧
      (∀ (env : Env) (cid : String) (code : Nat) (body : String),
          envFetch env cid = .status code body →
          (read_diksha_content env (some cid)).1.isError = true) ∧
      (∀ (env : Env) (cid : String),
          (contentExecute env cid).count = (contentExecute env cid).artifact_urls.length) ∧
      (∀ (env : Env) (cid : String) (code : Nat) (body : String),
          envFetch env cid = .status code body →
          (contentExecute env cid).error.isSome = true) ∧
      (∀ (env : Env) (cid : String),
          (sandboxExecute env cid).count = (sandboxExecute env cid).content.length) := by
  refine ⟨?_, ?_, ?_, ?_, ?_⟩
  · intro env params
    cases params with
    | none => exact trivial
    | some cid =>
      unfold read_diksha_content
      dsimp only
      rcases h : dikshaRetrieve env cid with ⟨⟨ids, err⟩, fetched⟩
      cases ids with
      | none =>
        cases err with
        | some e => exact trivial
        | none => exact trivial
      | some l =>
        cases err with
        | some e => exact trivial
        | none =>
          dsimp only
          split_ifs with h1 h2
          · exact trivial
          · exact trivial
          · exact rfl
  · intro env cid code body hst
    have hret : ∃ m fetched, dikshaRetrieve env cid = ((none, some m), fetched) := by
      unfold dikshaRetrieve
      split_ifs with h0 h1 <;>
        first
          | (rw [hst]; exact ⟨_, _, rfl⟩)
          | exact ⟨_, _, rfl⟩
    obtain ⟨m, fetched, hm⟩ := hret
    unfold read_diksha_content
    dsimp only
    rw [hm]
    rfl
  · intro env cid
    unfold contentExecute
    rcases h : retrieve_content_ids env cid with ⟨ids, err⟩
    cases ids with
    | none =>
      cases err with
      | some e => rfl
      | none => rfl
    | some l =>
      cases err with
      | some e => rfl
      | none =>
        dsimp only
        split_ifs with h1
        · rfl
        · rfl
  · intro env cid code body hst
    unfold contentExecute retrieve_content_ids
    rw [hst]
    rfl
  · intro env cid
    unfold sandboxExecute
    rcases h : process_content env (envFuel env) { visited := [], items := [] } cid with st | m
    · rfl
    · rfl
    · rfl

/-- Witness for `resolution_payload_contract` at a concrete failing root. -/
theorem resolution_payload_contract_witness :
    (read_diksha_content [("do_1", FetchResult.status 500 "oops")] (some "do_1")).1.isError =
        true ∧
      (contentExecute [("do_1", FetchResult.status 500 "oops")] "do_1").error.isSome = true :=
  ⟨resolution_payload_contract.2.1 [("do_1", FetchResult.status 500 "oops")] "do_1" 500 "oops"
      (by rfl),
   resolution_payload_contract.2.2.2.1 [("do_1", FetchResult.status 500 "oops")] "do_1" 500 "oops"
      (by rfl)⟩

/-! ### C5 — empty aggregates -/

/-- The urls `fetch_and_filter` contributes for one node. -/
def fetchAppends (env : Env) (content_id : String) : List String :=
  match envFetch env content_id with
  | .ok content =>
      if content.mimeType ≠ EXCLUDED_MIME_TYPE ∧ content.mimeType = PDF_MIME_TYPE ∧
         pyTruthyStrOpt content.streamingUrl
      then [content.streamingUrl.getD ""]
      else []
  | .status _ _ => []
  | .exn _ => []

theorem fetch_and_filter_eq_append (env : Env) (cid : String) (urls : List String) :
    fetch_and_filter env cid urls = urls ++ fetchAppends env cid := by
  unfold fetch_and_filter fetchAppends
  cases envFetch env cid with
  | ok c =>
    dsimp only
    split_ifs <;> simp
  | status code body => simp
  | exn m => simp

theorem foldl_fetch_and_filter (env : Env) (ids : List String) (urls : List String) :
    ids.foldl (fun acc c => fetch_and_filter env c acc) urls =
      urls ++ (ids.map (fetchAppends env)).flatten := by
  induction ids generalizing urls with
  | nil => simp
  | cons c rest ih =>
    rw [List.foldl_cons, ih, fetch_and_filter_eq_append]
    simp [List.append_assoc]

/-- Concrete graph for C5: the root resolves to a collection with zero
children. -/
def envC5 : Env := [("do_1", .ok { mimeType := COLLECTION_MIME_TYPE, leafNodes := [] })]

/-- C5 counterexample.  The claim states that a successfully resolving root
collection with zero children yields a success payload with count 0; but
`ContentProcessor.execute` treats an empty `leafNodes` list as an error
(content/api.py lines 108-109) and returns an error payload. -/
theorem content_zero_children_gives_error_payload :
    (contentExecute envC5 "do_1").error.isSome = true ∧
      envFetch envC5 "do_1" = .ok { mimeType := COLLECTION_MIME_TYPE, leafNodes := [] } := by
  exact ⟨rfl, rfl⟩

/-- C5 amended (corrected).
(1) The sandbox processor returns a success payload with empty content and
    count 0 for a root collection with zero children;
(2) the content processor returns a success payload with count 0 when the
    root has children but none qualifies;
(3) but the content processor reports an *error* payload when the root's
    `leafNodes` list is empty. -/
theorem empty_aggregate_behavior :
    (∀ (env : Env) (cid : String) (c : RawContent),
        envFetch env cid = .ok c → c.mimeType = COLLECTION_MIME_TYPE → c.leafNodes = [] →
        sandboxExecute env cid =
          { content := [], count := 0, message := "Successfully retrieved content items",
            success := true, error := none }) ∧
      (∀ (env : Env) (cid : String) (c : RawContent),
          envFetch env cid = .ok c → c.leafNodes ≠ [] →
          (∀ x ∈ c.leafNodes, fetchAppends env x = []) →
          contentExecute env cid =
            { artifact_urls := [], count := 0,
              message := "Successfully retrieved artifact URLs for non-ECML content",
              error := none }) ∧
      (∀ (env : Env) (cid : String) (c : RawContent),
          envFetch env cid = .ok c → c.leafNodes = [] →
          (contentExecute env cid).error =
            some "No content IDs found for the given content_id") := by
  refine ⟨?_, ?_, ?_⟩
  · intro env cid c hfetch hmime hleaf
    unfold sandboxExecute envFuel
    rw [show env.length + 1 = Nat.succ env.length from rfl]
    unfold process_content
    rw [if_neg (List.not_mem_nil cid), hfetch]
    dsimp only
    rw [if_pos hmime, if_pos hleaf]
    rfl
  · intro env cid c hfetch hne hzero
    unfold contentExecute retrieve_content_ids
    rw [hfetch]
    dsimp only
    rw [if_neg hne]
    have hurls : c.leafNodes.foldl (fun acc x => fetch_and_filter env x acc) [] = [] := by
      rw [foldl_fetch_and_filter]
      simp only [List.nil_append, List.flatten_eq_nil_iff, List.mem_map]
      rintro l ⟨x, hx, rfl⟩
      exact hzero x hx
    simp [hurls]
  · intro env cid c hfetch hleaf
    unfold contentExecute retrieve_content_ids
    rw [hfetch]
    dsimp only
    rw [if_pos hleaf]

/-- Zero-children environment for the C5 witness. -/
def envC5w : Env := [("do_1", .ok { mimeType := COLLECTION_MIME_TYPE, leafNodes := [] })]

/-- Children-but-nothing-qualifies environment for the C5 witness. -/
def envC5w2 : Env :=
  [("do_1", .ok { mimeType := COLLECTION_MIME_TYPE, leafNodes := ["do_2"] }),
   ("do_2", .ok { mimeType := "application/epub" })]

/-- Witness for `empty_aggregate_behavior` at concrete inputs. -/
theorem empty_aggregate_behavior_witness :
    sandboxExecute envC5w "do_1" =
        { content := [], count := 0, message := "Successfully retrieved content items",
          success := true, error := none } ∧
      contentExecute envC5w2 "do_1" =
        { artifact_urls := [], count := 0,
          message := "Successfully retrieved artifact URLs for non-ECML content",
          error := none } ∧
      (contentExecute envC5w "do_1").error = some "No content IDs found for the given content_id" :=
  ⟨empty_aggregate_behavior.1 envC5w "do_1"
      { mimeType := COLLECTION_MIME_TYPE, leafNodes := [] } (by rfl) (by rfl) (by rfl),
   empty_aggregate_behavior.2.1 envC5w2 "do_1"
      { mimeType := COLLECTION_MIME_TYPE, leafNodes := ["do_2"] } (by rfl) (by decide)
      (by decide),
   empty_aggregate_behavior.2.2 envC5w "do_1"
      { mimeType := COLLECTION_MIME_TYPE, leafNodes := [] } (by rfl) (by rfl)⟩

/-! ### C2 — partial failure isolation -/

/-- A direct child is benign for the fan-out when its fetch yields either a
successfully parsed non-collection node or a non-200 status (404 included);
a raised transport exception is not benign. -/
def childOkB (env : Env) (c : String) : Bool :=
  match envFetch env c with
  | .ok n => n.mimeType ≠ COLLECTION_MIME_TYPE
  | .status _ _ => true
  | .exn _ => false

/-- Leaves contributed by a list of direct children. -/
def childLeaves (env : Env) (cs : List String) : List SandboxContentItem :=
  cs.filterMap (fun c =>
    match envFetch env c with
    | .ok n => some (extract_content_item n)
    | _ => none)

/-- Leaves contributed by one direct child. -/
def childLeafOne (env : Env) (c : String) : List SandboxContentItem :=
  match envFetch env c with
  | .ok n => [extract_content_item n]
  | _ => []

theorem children_fold_ok (env : Env) (fuel : Nat) :
    ∀ (cs : List String) (st : TravState),
      (∀ c ∈ cs, c ∉ st.visited) → cs.Nodup →
      (∀ c ∈ cs, childOkB env c = true) →
      cs.foldl
          (fun acc nid =>
            match acc with
            | TravRes.ok st2 => process_content env (fuel + 1) st2 nid
            | o => o)
          (.ok st)
        = .ok { visited := cs.reverse ++ st.visited,
                items := st.items ++ childLeaves env cs } := by
  intro cs
  induction cs with
  | nil =>
    intro st _ _ _
    simp [childLeaves]
  | cons c rest ih =>
    intro st hvis hnodup hch
    rw [List.foldl_cons]
    have hcvis : c ∉ st.visited := hvis c (List.mem_cons_self c rest)
    have hcok := hch c (List.mem_cons_self c rest)
    rw [List.nodup_cons] at hnodup
    have hstep :
        process_content env (fuel + 1) st c =
          .ok { visited := c :: st.visited, items := st.items ++ childLeafOne env c } := by
      unfold process_content
      rw [if_neg hcvis]
      unfold childOkB at hcok
      cases hf : envFetch env c with
      | ok n =>
        rw [hf] at hcok
        dsimp only at hcok
        simp only [decide_eq_true_eq] at hcok
        dsimp only
        rw [if_neg hcok]
        simp [childLeafOne, hf]
      | status code body =>
        dsimp only
        simp [childLeafOne, hf]
      | exn m =>
        rw [hf] at hcok
        dsimp only at hcok
        simp at hcok
    dsimp only
    rw [hstep]
    have hres := ih { visited := c :: st.visited, items := st.items ++ childLeafOne env c }
      (by
        intro x hx
        simp only [List.mem_cons, not_or]
        exact ⟨fun hxc => hnodup.1 (hxc ▸ hx), hvis x (List.mem_cons_of_mem c hx)⟩)
      hnodup.2
      (fun x hx => hch x (List.mem_cons_of_mem c hx))
    rw [hres]
    have hleaves : childLeaves env (c :: rest) = childLeafOne env c ++ childLeaves env rest := by
      unfold childLeaves childLeafOne
      cases hf : envFetch env c with
      | ok n => simp [List.filterMap_cons, hf]
      | status code body => simp [List.filterMap_cons, hf]
      | exn m => simp [List.filterMap_cons, hf]
    rw [hleaves]
    simp [List.reverse_cons, List.append_assoc]

theorem envFetch_ok_ne_nil {env : Env} {cid : String} {c : RawContent}
    (h : envFetch env cid = .ok c) : env ≠ [] := by
  intro hnil
  subst hnil
  simp [envFetch] at h

/-- C2 amended (corrected).  If the root is a collection and every direct
child fetch ends in either a parsed non-collection node or a non-200 HTTP
status (NotFound or any other status failure) — i.e. no raised transport
exception — the operation completes successfully with exactly the leaves of
the successfully fetched children; the failed children are skipped without
aborting siblings.  (A raised transport exception, by contrast, aborts the
whole operation: see `sandbox_transport_failure_aborts`.) -/
theorem sandbox_partial_failure_isolation (env : Env) (root : String) (rootNode : RawContent)
    (hroot : envFetch env root = .ok rootNode)
    (hmime : rootNode.mimeType = COLLECTION_MIME_TYPE)
    (hnodup : (root :: rootNode.leafNodes).Nodup)
    (hch : ∀ c ∈ rootNode.leafNodes, childOkB env c = true) :
    sandboxExecute env root =
      { content := childLeaves env rootNode.leafNodes,
        count := (childLeaves env rootNode.leafNodes).length,
        message := "Successfully retrieved content items", success := true, error := none } := by
  obtain ⟨k, hk⟩ : ∃ k, env.length = k + 1 := by
    cases henv : env with
    | nil => exact absurd henv (envFetch_ok_ne_nil hroot)
    | cons p rest => exact ⟨rest.length, rfl⟩
  rw [List.nodup_cons] at hnodup
  unfold sandboxExecute envFuel
  rw [show env.length + 1 = Nat.succ env.length from rfl]
  unfold process_content
  rw [if_neg (List.not_mem_nil root), hroot]
  dsimp only
  rw [if_pos hmime]
  by_cases hleaf : rootNode.leafNodes = []
  · rw [if_pos hleaf, hleaf]
    rfl
  · rw [if_neg hleaf, hk]
    rw [children_fold_ok env k rootNode.leafNodes { visited := [root], items := [] }
      (by
        intro x hx
        simp only [List.mem_singleton]
        intro hxr
        exact hnodup.1 (hxr ▸ hx))
      hnodup.2 hch]
    rfl

/-- Concrete graph for the C2 counterexample: two children, one raising a
transport exception, the other a valid PDF leaf. -/
def envC2 : Env :=
  [("do_1", .ok { mimeType := COLLECTION_MIME_TYPE, leafNodes := ["do_2", "do_3"] }),
   ("do_2", .exn "boom"),
   ("do_3", .ok { identifier := "three", mimeType := "application/pdf",
                  streamingUrl := some "u" })]

/-- C2 counterexample.  The claim states that a single child failure —
including a transport failure — never aborts the operation and the sibling
leaves still appear; but a raised transport exception in one child is
re-raised through `_process_content` and `execute` returns a failure payload
with an empty content list: the sibling `do_3` leaf is lost. -/
theorem sandbox_transport_failure_aborts :
    (sandboxExecute envC2 "do_1").success = false ∧
      (sandboxExecute envC2 "do_1").content = [] ∧
      (sandboxExecute envC2 "do_1").error = some "boom" ∧
      envFetch envC2 "do_3" =
        .ok { identifier := "three", mimeType := "application/pdf",
              streamingUrl := some "u" } := by
  exact ⟨rfl, rfl, rfl, rfl⟩

/-- Concrete graph for the C2 witness: three children, the middle one a 404. -/
def envC2w : Env :=
  [("do_1", .ok { mimeType := COLLECTION_MIME_TYPE, leafNodes := ["do_2", "do_3", "do_4"] }),
   ("do_2", .ok { identifier := "two", mimeType := "application/pdf",
                  streamingUrl := some "u2" }),
   ("do_3", .status 404 "nf"),
   ("do_4", .ok { identifier := "four", mimeType := "application/pdf",
                  streamingUrl := some "u4" })]

/-- Witness for `sandbox_partial_failure_isolation`: with one 404 child among
three, the other two leaves are returned and the payload is a success. -/
theorem sandbox_partial_failure_isolation_witness :
    sandboxExecute envC2w "do_1" =
      { content := childLeaves envC2w ["do_2", "do_3", "do_4"],
        count := (childLeaves envC2w ["do_2", "do_3", "do_4"]).length,
        message := "Successfully retrieved content items", success := true, error := none } :=
  sandbox_partial_failure_isolation envC2w "do_1"
    { mimeType := COLLECTION_MIME_TYPE, leafNodes := ["do_2", "do_3", "do_4"] }
    (by rfl) (by rfl) (by decide) (by decide)

/-! ### C4 — termination bounded by the visited set -/

/-- Number of identifiers having a record in `env` that are not yet visited:
the traversal's termination measure. -/
def unvisitedCard (env : Env) (visited : List String) : Nat :=
  ((env.map Prod.fst).toFinset \ visited.toFinset).card

theorem lookup_mem_keys {env : Env} {k : String} {v : FetchResult}
    (h : List.lookup k env = some v) : k ∈ env.map Prod.fst := by
  induction env with
  | nil => simp [List.lookup] at h
  | cons p rest ih =>
    obtain ⟨a, b⟩ := p
    by_cases hk : (k == a) = true
    · simp only [beq_iff_eq] at hk
      simp [hk]
    · have hk' : (k == a) = false := by simpa using hk
      rw [List.lookup, hk'] at h
      dsimp only at h
      exact List.mem_cons_of_mem _ (ih h)

theorem envFetch_ok_mem {env : Env} {id : String} {c : RawContent}
    (h : envFetch env id = .ok c) : id ∈ env.map Prod.fst := by
  unfold envFetch at h
  cases hl : List.lookup id env with
  | none => rw [hl] at h; simp at h
  | some v => exact lookup_mem_keys hl

theorem unvisited_lt {env : Env} {id : String} {visited : List String}
    (hmem : id ∈ env.map Prod.fst) (hvis : id ∉ visited) :
    unvisitedCard env (id :: visited) < unvisitedCard env visited := by
  unfold unvisitedCard
  rw [List.toFinset_cons]
  apply Finset.card_lt_card
  rw [Finset.ssubset_iff_of_subset
    (Finset.sdiff_subset_sdiff (Finset.Subset.refl _) (Finset.subset_insert _ _))]
  refine ⟨id, ?_, ?_⟩
  · rw [Finset.mem_sdiff]
    exact ⟨List.mem_toFinset.2 hmem, fun hx => hvis (List.mem_toFinset.1 hx)⟩
  · rw [Finset.mem_sdiff]
    rintro ⟨-, hx⟩
    exact hx (Finset.mem_insert_self _ _)

theorem unvisited_mono {env : Env} {visited visited' : List String}
    (h : visited ⊆ visited') :
    unvisitedCard env visited' ≤ unvisitedCard env visited := by
  unfold unvisitedCard
  apply Finset.card_le_card
  intro x hx
  rw [Finset.mem_sdiff] at hx ⊢
  exact ⟨hx.1, fun hv => hx.2 (List.mem_toFinset.2 (h (List.mem_toFinset.1 hv)))⟩

theorem foldl_raised (env : Env) (fuel : Nat) (cs : List String) (m : String) :
    cs.foldl
        (fun acc nid =>
          match acc with
          | TravRes.ok st2 => process_content env fuel st2 nid
          | o => o)
        (.raised m) = .raised m := by
  induction cs with
  | nil => rfl
  | cons c rest ih => rw [List.foldl_cons]; exact ih

theorem foldl_fuelOut (env : Env) (fuel : Nat) (cs : List String) :
    cs.foldl
        (fun acc nid =>
          match acc with
          | TravRes.ok st2 => process_content env fuel st2 nid
          | o => o)
        .fuelOut = .fuelOut := by
  induction cs with
  | nil => rfl
  | cons c rest ih => rw [List.foldl_cons]; exact ih

theorem process_content_visited_mono (env : Env) :
    ∀ (fuel : Nat) (st : TravState) (id : String) (st' : TravState),
      process_content env fuel st id = .ok st' → st.visited ⊆ st'.visited := by
  intro fuel
  induction fuel with
  | zero =>
    intro st id st' h
    exact absurd h (by simp [process_content])
  | succ fuel ih =>
    have hfold : ∀ (cs : List String) (st st' : TravState),
        cs.foldl
            (fun acc nid =>
              match acc with
              | TravRes.ok st2 => process_content env fuel st2 nid
              | o => o)
            (.ok st) = .ok st' → st.visited ⊆ st'.visited := by
      intro cs
      induction cs with
      | nil =>
        intro st st' h
        cases h
        exact List.Subset.refl _
      | cons c rest ihc =>
        intro st st' h
        rw [List.foldl_cons] at h
        dsimp only at h
        cases h1 : process_content env fuel st c with
        | ok st2 =>
          rw [h1] at h
          exact (ih st c st2 h1).trans (ihc st2 st' h)
        | raised m =>
          rw [h1, foldl_raised] at h
          simp at h
        | fuelOut =>
          rw [h1, foldl_fuelOut] at h
          simp at h
    intro st id st' h
    unfold process_content at h
    by_cases hvis : id ∈ st.visited
    · rw [if_pos hvis] at h
      cases h
      exact List.Subset.refl _
    · rw [if_neg hvis] at h
      cases hf : envFetch env id with
      | exn m =>
        rw [hf] at h
        simp at h
      | status code body =>
        rw [hf] at h
        dsimp only at h
        cases h
        exact List.subset_cons_self _ _
      | ok c =>
        rw [hf] at h
        dsimp only at h
        by_cases hm : c.mimeType = COLLECTION_MIME_TYPE
        · rw [if_pos hm] at h
          by_cases hn : c.leafNodes = []
          · rw [if_pos hn] at h
            cases h
            exact List.subset_cons_self _ _
          · rw [if_neg hn] at h
            exact (List.subset_cons_self _ _).trans (hfold c.leafNodes _ st' h)
        · rw [if_neg hm] at h
          cases h
          exact List.subset_cons_self _ _

theorem process_content_enough_fuel (env : Env) :
    ∀ (fuel : Nat) (st : TravState) (id : String),
      unvisitedCard env st.visited < fuel →
      process_content env fuel st id ≠ .fuelOut := by
  intro fuel
  induction fuel with
  | zero =>
    intro st id h
    omega
  | succ fuel ih =>
    intro st id hlt
    unfold process_content
    by_cases hvis : id ∈ st.visited
    · rw [if_pos hvis]
      simp
    · rw [if_neg hvis]
      cases hf : envFetch env id with
      | exn m => simp
      | status code body => simp
      | ok c =>
        dsimp only
        by_cases hm : c.mimeType = COLLECTION_MIME_TYPE
        · rw [if_pos hm]
          by_cases hn : c.leafNodes = []
          · rw [if_pos hn]
            simp
          · rw [if_neg hn]
            have hdrop : unvisitedCard env (id :: st.visited) < fuel := by
              have h1 := unvisited_lt (envFetch_ok_mem hf) hvis
              omega
            have hfold : ∀ (cs : List String) (st2 : TravState),
                unvisitedCard env st2.visited < fuel →
                cs.foldl
                    (fun acc nid =>
                      match acc with
                      | TravRes.ok st3 => process_content env fuel st3 nid
                      | o => o)
                    (.ok st2) ≠ .fuelOut := by
              intro cs
              induction cs with
              | nil =>
                intro st2 _
                simp
              | cons x rest ihc =>
                intro st2 h2
                rw [List.foldl_cons]
                dsimp only
                cases h1 : process_content env fuel st2 x with
                | ok st3 =>
                  apply ihc st3
                  have hsub := process_content_visited_mono env fuel st2 x st3 h1
                  have := @unvisited_mono env _ _ hsub
                  omega
                | raised m =>
                  rw [foldl_raised]
                  simp
                | fuelOut =>
                  exact absurd h1 (ih st2 x h2)
            exact hfold c.leafNodes { st with visited := id :: st.visited } hdrop
        · rw [if_neg hm]
          simp

/-- C4 (confirmed).  For every finite content graph — cyclic ones included —
the sandbox traversal terminates: any fuel exceeding the number of unvisited
recorded identifiers suffices (the visited set alone bounds the recursion,
with no dependence on depth), and in particular `envFuel` always suffices, so
`sandboxExecute` returns a (finite) payload computed from a completed
traversal. -/
theorem sandbox_resolver_terminates :
    (∀ (env : Env) (fuel : Nat) (st : TravState) (id : String),
        unvisitedCard env st.visited < fuel →
        process_content env fuel st id ≠ .fuelOut) ∧
      (∀ (env : Env) (id : String),
          process_content env (envFuel env) { visited := [], items := [] } id ≠ .fuelOut) := by
  constructor
  · exact fun env fuel st id h => process_content_enough_fuel env fuel st id h
  · intro env id
    apply process_content_enough_fuel
    show unvisitedCard env [] < envFuel env
    have h1 : unvisitedCard env [] ≤ env.length := by
      unfold unvisitedCard
      calc ((env.map Prod.fst).toFinset \ List.toFinset []).card
          ≤ (env.map Prod.fst).toFinset.card :=
            Finset.card_le_card (Finset.sdiff_subset)
        _ ≤ (env.map Prod.fst).length := List.toFinset_card_le _
        _ = env.length := List.length_map _ _
    unfold envFuel
    omega

/-- The cyclic two-collection graph of the claim: `do_1` lists `do_2` as a
child and `do_2` lists `do_1`. -/
def envCyc : Env :=
  [("do_1", .ok { mimeType := COLLECTION_MIME_TYPE, leafNodes := ["do_2"] }),
   ("do_2", .ok { mimeType := COLLECTION_MIME_TYPE, leafNodes := ["do_1"] })]

/-- Witness for `sandbox_resolver_terminates`: the traversal of the cyclic
graph terminates at the computed fuel bound. -/
theorem sandbox_resolver_terminates_witness :
    process_content envCyc 3 { visited := [], items := [] } "do_1" ≠ TravRes.fuelOut :=
  sandbox_resolver_terminates.1 envCyc 3 { visited := [], items := [] } "do_1" (by decide)

/-! ### Concurrent semantics of the sandbox resolver

Small-step interleaving semantics of `_process_content` /
`_process_child_nodes` under asyncio's single-threaded cooperative scheduler.
One task exists per in-progress `process_node` / root call.  Suspension points
— hence step boundaries — are exactly those of the Python: the semaphore
acquisition plus the synchronous section up to the fetch await (`start`), the
completion of the network read plus the synchronous continuation
(`fetchEnd`), and the `asyncio.gather` fan-in (`joinEnd` / `joinFail`).
Everything between two awaits is one atomic step, exactly as in the source
(visited-set test-and-insert, item append, task spawning).

Each `_process_child_nodes` invocation creates a *fresh*
`asyncio.Semaphore(max_concurrent)` (sandbox_content/api.py line 110); model:
every fan-out allocates a new gate, and a task holds its gate slot from
acquisition until its `process_node` coroutine finishes — including while it
is suspended in the nested gather. -/

/-- State of one traversal task. -/
inductive TaskState where
  | waitGate (gate : Nat) (cid : String)
  | inFetch (gate : Option Nat) (cid : String)
  | joining (gate : Option Nat) (children : List Nat)
  | done
  | failed
deriving DecidableEq, Repr

/-- The gate slot a task currently holds (the root task holds none). -/
def holdsGate : TaskState → Option Nat
  | .inFetch g _ => g
  | .joining g _ => g
  | _ => none

/-- Whether a task has finished (normally or by a raised exception). -/
def isTerminal : TaskState → Bool
  | .done => true
  | .failed => true
  | _ => false

/-- A configuration of the interleaving semantics.  `tasks` is total; every
index at or above `nextTask` is `done` (invariant `Bnd`). -/
structure CConfig where
  tasks : Nat → TaskState
  nextTask : Nat
  nextGate : Nat
  visited : List String
  items : List SandboxContentItem

/-- Count the indices below `n` satisfying `f`. -/
def countBelow (f : Nat → Bool) : Nat → Nat
  | 0 => 0
  | n + 1 => countBelow f n + (if f n then 1 else 0)

/-- Number of tasks currently holding a slot of gate `g`. -/
def gateHolders (c : CConfig) (g : Nat) : Nat :=
  countBelow (fun i => decide (holdsGate (c.tasks i) = some g)) c.nextTask

/-- Number of fetches simultaneously in flight. -/
def inFlight (c : CConfig) : Nat :=
  countBelow
    (fun i => match c.tasks i with | .inFetch _ _ => true | _ => false)
    c.nextTask

/-- Number of tasks in flight fetching `x`. -/
def inFetchCount (c : CConfig) (x : String) : Nat :=
  countBelow
    (fun i => match c.tasks i with | .inFetch _ cid => decide (cid = x) | _ => false)
    c.nextTask

/-- Point update of the task table. -/
def updateTask (tasks : Nat → TaskState) (t : Nat) (s : TaskState) : Nat → TaskState :=
  fun i => if i = t then s else tasks i

/-- Spawn one `waitGate` task per child identifier at fresh indices
`base, base+1, ...`. -/
def spawnTasks (tasks : Nat → TaskState) (base : Nat) (gate : Nat) (cs : List String) :
    Nat → TaskState :=
  fun i => if base ≤ i ∧ i < base + cs.length
           then .waitGate gate (cs.getD (i - base) "")
           else tasks i

/-- Scheduler actions: which task runs its next atomic section. -/
inductive Action where
  | start (t : Nat)
  | fetchEnd (t : Nat)
  | joinEnd (t : Nat)
  | joinFail (t : Nat)
deriving DecidableEq, Repr

/-- One atomic step of the interleaving semantics; `none` when the action is
not enabled in `c`:
  * `start t` — a spawned task acquires a slot of its gate (only when fewer
    than `limit` holders), then runs `_process_content` up to the fetch
    await: if its id is already visited it returns at once (releasing the
    slot within the same synchronous section), else it inserts the id into
    the visited set and suspends in the fetch — test and insertion with no
    suspension point between them;
  * `fetchEnd t` — the fetch completes and the synchronous continuation
    runs: a raised transport exception fails the task, a non-200 status ends
    it quietly, a non-collection node appends its extracted item, a
    collection with children allocates a fresh gate and spawns one task per
    child, the parent suspending in the gather while still holding its own
    slot;
  * `joinEnd t` — all children of a gathering parent are done: the parent
    returns and releases its slot;
  * `joinFail t` — some child raised: the gather re-raises in the parent
    (the other children keep running; asyncio.gather does not cancel them). -/
def step (env : Env) (limit : Nat) (a : Action) (c : CConfig) : Option CConfig :=
  match a with
  | .start t =>
    match c.tasks t with
    | .waitGate g cid =>
      if gateHolders c g < limit then
        if cid ∈ c.visited then
          some { c with tasks := updateTask c.tasks t .done }
        else
          some { c with tasks := updateTask c.tasks t (.inFetch (some g) cid),
                        visited := cid :: c.visited }
      else none
    | _ => none
  | .fetchEnd t =>
    match c.tasks t with
    | .inFetch og cid =>
      match envFetch env cid with
      | .exn _ => some { c with tasks := updateTask c.tasks t .failed }
      | .status _ _ => some { c with tasks := updateTask c.tasks t .done }
      | .ok content =>
        if content.mimeType = COLLECTION_MIME_TYPE then
          if content.leafNodes = [] then
            some { c with tasks := updateTask c.tasks t .done }
          else
            some { c with
              tasks := spawnTasks
                (updateTask c.tasks t
                  (.joining og (List.range' c.nextTask content.leafNodes.length)))
                c.nextTask c.nextGate content.leafNodes,
              nextTask := c.nextTask + content.leafNodes.length,
              nextGate := c.nextGate + 1 }
        else
          some { c with tasks := updateTask c.tasks t .done,
                        items := c.items ++ [extract_content_item content] }
    | _ => none
  | .joinEnd t =>
    match c.tasks t with
    | .joining _og ch =>
      if ch.all (fun i => decide (c.tasks i = TaskState.done)) then
        some { c with tasks := updateTask c.tasks t .done }
      else none
    | _ => none
  | .joinFail t =>
    match c.tasks t with
    | .joining _og ch =>
      if ch.any (fun i => decide (c.tasks i = TaskState.failed)) then
        some { c with tasks := updateTask c.tasks t .failed }
      else none
    | _ => none

/-- Initial configuration of `execute(root)`: the root `_process_content`
call has already passed its (trivially empty) visited check, inserted the
root and suspended in its ungated fetch. -/
def initConfig (root : String) : CConfig :=
  { tasks := fun i => if i = 0 then .inFetch none root else .done,
    nextTask := 1, nextGate := 0, visited := [root], items := [] }

/-- Run a list of scheduler actions; `none` if any action is not enabled. -/
def runFrom (env : Env) (limit : Nat) : CConfig → List Action → Option CConfig
  | c, [] => some c
  | c, a :: as =>
    match step env limit a c with
    | some c' => runFrom env limit c' as
    | none => none

/-- Run from the initial configuration for `root`. -/
def run (env : Env) (limit : Nat) (root : String) (as : List Action) : Option CConfig :=
  runFrom env limit (initConfig root) as

/-- All tasks have finished: the traversal has fully drained. -/
def Complete (c : CConfig) : Prop :=
  ∀ i < c.nextTask, isTerminal (c.tasks i) = true

instance decidableComplete (c : CConfig) : Decidable (Complete c) :=
  inferInstanceAs (Decidable (∀ i < c.nextTask, isTerminal (c.tasks i) = true))

/-- Every index at or above `nextTask` is an unborn (`done`) slot. -/
def Bnd (c : CConfig) : Prop := ∀ i, c.nextTask ≤ i → c.tasks i = .done

theorem task_lt_of_ne_done {c : CConfig} (hB : Bnd c) {t : Nat} {s : TaskState}
    (h : c.tasks t = s) (hs : s ≠ .done) : t < c.nextTask := by
  by_contra hge
  exact hs (h.symm.trans (hB t (Nat.le_of_not_lt hge)))

/-! #### Counting helpers -/

theorem countBelow_congr {f g : Nat → Bool} :
    ∀ n, (∀ i, i < n → f i = g i) → countBelow f n = countBelow g n := by
  intro n
  induction n with
  | zero => intro _; rfl
  | succ n ih =>
    intro h
    unfold countBelow
    rw [ih (fun i hi => h i (Nat.lt_succ_of_lt hi)), h n (Nat.lt_succ_self n)]

theorem countBelow_update (q : TaskState → Bool) (tasks : Nat → TaskState) (t : Nat)
    (v : TaskState) :
    ∀ n, t < n →
      countBelow (fun i => q (updateTask tasks t v i)) n + (if q (tasks t) then 1 else 0) =
        countBelow (fun i => q (tasks i)) n + (if q v then 1 else 0) := by
  intro n
  induction n with
  | zero => intro h; omega
  | succ n ih =>
    intro ht
    unfold countBelow
    by_cases hn : t = n
    · subst hn
      have hcongr : countBelow (fun i => q (updateTask tasks t v i)) t =
          countBelow (fun i => q (tasks i)) t :=
        countBelow_congr t (fun i hi => by
          have : i ≠ t := Nat.ne_of_lt hi
          simp [updateTask, this])
      rw [hcongr]
      have hv : updateTask tasks t v t = v := by simp [updateTask]
      rw [hv]
      generalize (if q v then 1 else 0) = a
      generalize (if q (tasks t) then 1 else 0) = b
      omega
    · have ht' : t < n := by omega
      have hupd : updateTask tasks t v n = tasks n := by
        have : n ≠ t := fun hc => hn hc.symm
        simp [updateTask, this]
      rw [hupd]
      have hih := ih ht'
      generalize hx : (if q (tasks n) then 1 else 0) = x
      generalize hy : (if q (tasks t) then 1 else 0) = y at hih ⊢
      generalize hz : (if q v then 1 else 0) = z at hih ⊢
      omega

theorem countBelow_update_keep (q : TaskState → Bool) (tasks : Nat → TaskState) (t : Nat)
    (v : TaskState) (n : Nat) (ht : t < n) (hq : q (tasks t) = q v) :
    countBelow (fun i => q (updateTask tasks t v i)) n =
      countBelow (fun i => q (tasks i)) n := by
  have h := countBelow_update q tasks t v n ht
  rw [hq] at h
  generalize hw : (if q v = true then (1:Nat) else 0) = w at h
  omega

theorem countBelow_update_le (q : TaskState → Bool) (tasks : Nat → TaskState) (t : Nat)
    (v : TaskState) (n : Nat) (ht : t < n) (hq : q v = false) :
    countBelow (fun i => q (updateTask tasks t v i)) n ≤
      countBelow (fun i => q (tasks i)) n := by
  have h := countBelow_update q tasks t v n ht
  rw [hq] at h
  simp only [show (if false = true then (1:Nat) else 0) = 0 from rfl] at h
  generalize hw : (if q (tasks t) = true then (1:Nat) else 0) = w at h
  omega

theorem countBelow_update_acquire (q : TaskState → Bool) (tasks : Nat → TaskState) (t : Nat)
    (v : TaskState) (n : Nat) (ht : t < n) (hold : q (tasks t) = false) (hnew : q v = true) :
    countBelow (fun i => q (updateTask tasks t v i)) n =
      countBelow (fun i => q (tasks i)) n + 1 := by
  have h := countBelow_update q tasks t v n ht
  rw [hold, hnew] at h
  simp only [show (if false = true then (1:Nat) else 0) = 0 from rfl, if_true] at h
  omega

theorem countBelow_ext_zero (f : Nat → Bool) (n : Nat) :
    ∀ k, (∀ i, n ≤ i → i < n + k → f i = false) →
      countBelow f (n + k) = countBelow f n := by
  intro k
  induction k with
  | zero => intro _; rfl
  | succ k ih =>
    intro h
    have hstep : n + (k + 1) = (n + k) + 1 := rfl
    rw [hstep]
    show countBelow f (n + k) + (if f (n + k) = true then 1 else 0) = countBelow f n
    rw [ih (fun i hi hik => h i hi (by omega)), h (n + k) (Nat.le_add_right n k) (by omega)]
    simp

/-- Exhaustive characterization of one enabled step: the nine possible atomic
transitions together with their enabling conditions. -/
theorem step_shapes {env : Env} {limit : Nat} {a : Action} {c c' : CConfig}
    (h : step env limit a c = some c') :
    (∃ t g cid, a = .start t ∧ c.tasks t = .waitGate g cid ∧ gateHolders c g < limit ∧
        cid ∈ c.visited ∧
        c' = { c with tasks := updateTask c.tasks t .done }) ∨
    (∃ t g cid, a = .start t ∧ c.tasks t = .waitGate g cid ∧ gateHolders c g < limit ∧
        cid ∉ c.visited ∧
        c' = { c with tasks := updateTask c.tasks t (.inFetch (some g) cid),
                      visited := cid :: c.visited }) ∨
    (∃ t og cid m, a = .fetchEnd t ∧ c.tasks t = .inFetch og cid ∧
        envFetch env cid = .exn m ∧
        c' = { c with tasks := updateTask c.tasks t .failed }) ∨
    (∃ t og cid code body, a = .fetchEnd t ∧ c.tasks t = .inFetch og cid ∧
        envFetch env cid = .status code body ∧
        c' = { c with tasks := updateTask c.tasks t .done }) ∨
    (∃ t og cid content, a = .fetchEnd t ∧ c.tasks t = .inFetch og cid ∧
        envFetch env cid = .ok content ∧
        content.mimeType = COLLECTION_MIME_TYPE ∧ content.leafNodes = [] ∧
        c' = { c with tasks := updateTask c.tasks t .done }) ∨
    (∃ t og cid content, a = .fetchEnd t ∧ c.tasks t = .inFetch og cid ∧
        envFetch env cid = .ok content ∧
        content.mimeType = COLLECTION_MIME_TYPE ∧ content.leafNodes ≠ [] ∧
        c' = { c with
          tasks := spawnTasks
            (updateTask c.tasks t
              (.joining og (List.range' c.nextTask content.leafNodes.length)))
            c.nextTask c.nextGate content.leafNodes,
          nextTask := c.nextTask + content.leafNodes.length,
          nextGate := c.nextGate + 1 }) ∨
    (∃ t og cid content, a = .fetchEnd t ∧ c.tasks t = .inFetch og cid ∧
        envFetch env cid = .ok content ∧
        content.mimeType ≠ COLLECTION_MIME_TYPE ∧
        c' = { c with tasks := updateTask c.tasks t .done,
                      items := c.items ++ [extract_content_item content] }) ∨
    (∃ t og ch, a = .joinEnd t ∧ c.tasks t = .joining og ch ∧ (∀ i ∈ ch, c.tasks i = .done) ∧
        c' = { c with tasks := updateTask c.tasks t .done }) ∨
    (∃ t og ch, a = .joinFail t ∧ c.tasks t = .joining og ch ∧
        (∃ i ∈ ch, c.tasks i = .failed) ∧
        c' = { c with tasks := updateTask c.tasks t .failed }) := by
  cases a with
  | start t =>
    unfold step at h
    dsimp only at h
    cases hT : c.tasks t with
    | waitGate g cid =>
      rw [hT] at h
      dsimp only at h
      split_ifs at h with h1 h2
      · injection h with h3
        subst h3
        exact Or.inl ⟨t, g, cid, rfl, hT, h1, h2, rfl⟩
      · injection h with h3
        subst h3
        exact Or.inr (Or.inl ⟨t, g, cid, rfl, hT, h1, h2, rfl⟩)
    | inFetch og cid => rw [hT] at h; simp at h
    | joining og ch => rw [hT] at h; simp at h
    | done => rw [hT] at h; simp at h
    | failed => rw [hT] at h; simp at h
  | fetchEnd t =>
    unfold step at h
    dsimp only at h
    cases hT : c.tasks t with
    | inFetch og cid =>
      rw [hT] at h
      dsimp only at h
      cases hf : envFetch env cid with
      | exn m =>
        rw [hf] at h
        injection h with h3
        subst h3
        exact Or.inr (Or.inr (Or.inl ⟨t, og, cid, m, rfl, hT, hf, rfl⟩))
      | status code body =>
        rw [hf] at h
        injection h with h3
        subst h3
        exact Or.inr (Or.inr (Or.inr (Or.inl ⟨t, og, cid, code, body, rfl, hT, hf, rfl⟩)))
      | ok content =>
        rw [hf] at h
        dsimp only at h
        split_ifs at h with h1 h2
        · injection h with h3
          subst h3
          exact Or.inr (Or.inr (Or.inr (Or.inr (Or.inl
            ⟨t, og, cid, content, rfl, hT, hf, h1, h2, rfl⟩))))
        · injection h with h3
          subst h3
          exact Or.inr (Or.inr (Or.inr (Or.inr (Or.inr (Or.inl
            ⟨t, og, cid, content, rfl, hT, hf, h1, h2, rfl⟩)))))
        · injection h with h3
          subst h3
          exact Or.inr (Or.inr (Or.inr (Or.inr (Or.inr (Or.inr (Or.inl
            ⟨t, og, cid, content, rfl, hT, hf, h1, rfl⟩))))))
    | waitGate g cid => rw [hT] at h; simp at h
    | joining og ch => rw [hT] at h; simp at h
    | done => rw [hT] at h; simp at h
    | failed => rw [hT] at h; simp at h
  | joinEnd t =>
    unfold step at h
    dsimp only at h
    cases hT : c.tasks t with
    | joining og ch =>
      rw [hT] at h
      dsimp only at h
      split_ifs at h with h1
      · injection h with h3
        subst h3
        refine Or.inr (Or.inr (Or.inr (Or.inr (Or.inr (Or.inr (Or.inr (Or.inl
          ⟨t, og, ch, rfl, hT, ?_, rfl⟩)))))))
        intro i hi
        have := List.all_eq_true.1 h1 i hi
        exact of_decide_eq_true this
    | waitGate g cid => rw [hT] at h; simp at h
    | inFetch og cid => rw [hT] at h; simp at h
    | done => rw [hT] at h; simp at h
    | failed => rw [hT] at h; simp at h
  | joinFail t =>
    unfold step at h
    dsimp only at h
    cases hT : c.tasks t with
    | joining og ch =>
      rw [hT] at h
      dsimp only at h
      split_ifs at h with h1
      · injection h with h3
        subst h3
        refine Or.inr (Or.inr (Or.inr (Or.inr (Or.inr (Or.inr (Or.inr (Or.inr
          ⟨t, og, ch, rfl, hT, ?_, rfl⟩)))))))
        obtain ⟨i, hi, hdec⟩ := List.any_eq_true.1 h1
        exact ⟨i, hi, of_decide_eq_true hdec⟩
    | waitGate g cid => rw [hT] at h; simp at h
    | inFetch og cid => rw [hT] at h; simp at h
    | done => rw [hT] at h; simp at h
    | failed => rw [hT] at h; simp at h

theorem Bnd_update {c : CConfig} (hB : Bnd c) {t : Nat} (v : TaskState) :
    ∀ i, c.nextTask ≤ i → i ≠ t → updateTask c.tasks t v i = .done := by
  intro i hi hne
  unfold updateTask
  rw [if_neg hne]
  exact hB i hi

theorem step_Bnd {env : Env} {limit : Nat} {a : Action} {c c' : CConfig}
    (h : step env limit a c = some c') (hB : Bnd c) : Bnd c' := by
  rcases step_shapes h with
    ⟨t, g, cid, -, hT, hlim, hvis, rfl⟩ | ⟨t, g, cid, -, hT, hlim, hvis, rfl⟩ |
    ⟨t, og, cid, m, -, hT, hf, rfl⟩ | ⟨t, og, cid, code, body, -, hT, hf, rfl⟩ |
    ⟨t, og, cid, content, -, hT, hf, hm, hn, rfl⟩ | ⟨t, og, cid, content, -, hT, hf, hm, hn, rfl⟩ |
    ⟨t, og, cid, content, -, hT, hf, hm, rfl⟩ | ⟨t, og, ch, -, hT, hall, rfl⟩ |
    ⟨t, og, ch, -, hT, hany, rfl⟩
  case inl =>
    have ht := task_lt_of_ne_done hB hT (by simp)
    intro i hi
    dsimp only at hi ⊢
    exact Bnd_update hB _ i hi (by omega)
  case inr.inl =>
    have ht := task_lt_of_ne_done hB hT (by simp)
    intro i hi
    dsimp only at hi ⊢
    exact Bnd_update hB _ i hi (by omega)
  case inr.inr.inl =>
    have ht := task_lt_of_ne_done hB hT (by simp)
    intro i hi
    dsimp only at hi ⊢
    exact Bnd_update hB _ i hi (by omega)
  case inr.inr.inr.inl =>
    have ht := task_lt_of_ne_done hB hT (by simp)
    intro i hi
    dsimp only at hi ⊢
    exact Bnd_update hB _ i hi (by omega)
  case inr.inr.inr.inr.inl =>
    have ht := task_lt_of_ne_done hB hT (by simp)
    intro i hi
    dsimp only at hi ⊢
    exact Bnd_update hB _ i hi (by omega)
  case inr.inr.inr.inr.inr.inl =>
    have ht := task_lt_of_ne_done hB hT (by simp)
    intro i hi
    dsimp only at hi ⊢
    unfold spawnTasks
    rw [if_neg (by omega)]
    exact Bnd_update hB _ i (by omega) (by omega)
  case inr.inr.inr.inr.inr.inr.inl =>
    have ht := task_lt_of_ne_done hB hT (by simp)
    intro i hi
    dsimp only at hi ⊢
    exact Bnd_update hB _ i hi (by omega)
  case inr.inr.inr.inr.inr.inr.inr.inl =>
    have ht := task_lt_of_ne_done hB hT (by simp)
    intro i hi
    dsimp only at hi ⊢
    exact Bnd_update hB _ i hi (by omega)
  case inr.inr.inr.inr.inr.inr.inr.inr =>
    have ht := task_lt_of_ne_done hB hT (by simp)
    intro i hi
    dsimp only at hi ⊢
    exact Bnd_update hB _ i hi (by omega)

theorem step_visited_sub {env : Env} {limit : Nat} {a : Action} {c c' : CConfig}
    (h : step env limit a c = some c') : c.visited ⊆ c'.visited := by
  rcases step_shapes h with
    ⟨t, g, cid, -, hT, hlim, hvis, rfl⟩ | ⟨t, g, cid, -, hT, hlim, hvis, rfl⟩ |
    ⟨t, og, cid, m, -, hT, hf, rfl⟩ | ⟨t, og, cid, code, body, -, hT, hf, rfl⟩ |
    ⟨t, og, cid, content, -, hT, hf, hm, hn, rfl⟩ | ⟨t, og, cid, content, -, hT, hf, hm, hn, rfl⟩ |
    ⟨t, og, cid, content, -, hT, hf, hm, rfl⟩ | ⟨t, og, ch, -, hT, hall, rfl⟩ |
    ⟨t, og, ch, -, hT, hany, rfl⟩
  case inr.inl => exact List.subset_cons_self _ _
  all_goals exact List.Subset.refl _

theorem step_gateBound {env : Env} {limit : Nat} {a : Action} {c c' : CConfig}
    (h : step env limit a c = some c') (hB : Bnd c)
    (hG : ∀ g, gateHolders c g ≤ limit) : ∀ g, gateHolders c' g ≤ limit := by
  intro g'
  rcases step_shapes h with
    ⟨t, g, cid, -, hT, hlim, hvis, rfl⟩ | ⟨t, g, cid, -, hT, hlim, hvis, rfl⟩ |
    ⟨t, og, cid, m, -, hT, hf, rfl⟩ | ⟨t, og, cid, code, body, -, hT, hf, rfl⟩ |
    ⟨t, og, cid, content, -, hT, hf, hm, hn, rfl⟩ | ⟨t, og, cid, content, -, hT, hf, hm, hn, rfl⟩ |
    ⟨t, og, cid, content, -, hT, hf, hm, rfl⟩ | ⟨t, og, ch, -, hT, hall, rfl⟩ |
    ⟨t, og, ch, -, hT, hany, rfl⟩
  case inl =>
    have ht := task_lt_of_ne_done hB hT (by simp)
    have hcu := countBelow_update_le (fun s => decide (holdsGate s = some g')) c.tasks t
      .done c.nextTask ht (by simp [holdsGate])
    try dsimp only at hcu
    have hG' := hG g'
    unfold gateHolders at hG' ⊢
    dsimp only
    omega
  case inr.inl =>
    have ht := task_lt_of_ne_done hB hT (by simp)
    have hG' := hG g'
    have hlim' := hlim
    unfold gateHolders at hG' hlim' ⊢
    dsimp only
    by_cases hg : g = g'
    · subst hg
      have hcu := countBelow_update_acquire (fun s => decide (holdsGate s = some g)) c.tasks t
        (.inFetch (some g) cid) c.nextTask ht
        (by rw [hT]; simp [holdsGate]) (by simp [holdsGate])
      try dsimp only at hcu
      omega
    · have hcu := countBelow_update_keep (fun s => decide (holdsGate s = some g')) c.tasks t
        (.inFetch (some g) cid) c.nextTask ht
        (by rw [hT]; simp [holdsGate, hg])
      try dsimp only at hcu
      omega
  case inr.inr.inl =>
    have ht := task_lt_of_ne_done hB hT (by simp)
    have hcu := countBelow_update_le (fun s => decide (holdsGate s = some g')) c.tasks t
      .failed c.nextTask ht (by simp [holdsGate])
    try dsimp only at hcu
    have hG' := hG g'
    unfold gateHolders at hG' ⊢
    dsimp only
    omega
  case inr.inr.inr.inl =>
    have ht := task_lt_of_ne_done hB hT (by simp)
    have hcu := countBelow_update_le (fun s => decide (holdsGate s = some g')) c.tasks t
      .done c.nextTask ht (by simp [holdsGate])
    try dsimp only at hcu
    have hG' := hG g'
    unfold gateHolders at hG' ⊢
    dsimp only
    omega
  case inr.inr.inr.inr.inl =>
    have ht := task_lt_of_ne_done hB hT (by simp)
    have hcu := countBelow_update_le (fun s => decide (holdsGate s = some g')) c.tasks t
      .done c.nextTask ht (by simp [holdsGate])
    try dsimp only at hcu
    have hG' := hG g'
    unfold gateHolders at hG' ⊢
    dsimp only
    omega
  case inr.inr.inr.inr.inr.inl =>
    have ht := task_lt_of_ne_done hB hT (by simp)
    have hG' := hG g'
    unfold gateHolders at hG' ⊢
    dsimp only
    rw [countBelow_ext_zero _ c.nextTask content.leafNodes.length
      (fun i hi hik => by
        try dsimp only
        unfold spawnTasks
        rw [if_pos ⟨hi, hik⟩]
        simp [holdsGate])]
    rw [countBelow_congr c.nextTask
      (f := fun i => decide (holdsGate
        (spawnTasks
          (updateTask c.tasks t
            (.joining og (List.range' c.nextTask content.leafNodes.length)))
          c.nextTask c.nextGate content.leafNodes i) = some g'))
      (g := fun i => decide (holdsGate
        (updateTask c.tasks t
          (.joining og (List.range' c.nextTask content.leafNodes.length)) i) = some g'))
      (fun i hi => by
        try dsimp only
        unfold spawnTasks
        rw [if_neg (by omega)])]
    have hcu := countBelow_update_keep (fun s => decide (holdsGate s = some g')) c.tasks t
      (.joining og (List.range' c.nextTask content.leafNodes.length)) c.nextTask ht
      (by rw [hT]; rfl)
    try dsimp only at hcu
    omega
  case inr.inr.inr.inr.inr.inr.inl =>
    have ht := task_lt_of_ne_done hB hT (by simp)
    have hcu := countBelow_update_le (fun s => decide (holdsGate s = some g')) c.tasks t
      .done c.nextTask ht (by simp [holdsGate])
    try dsimp only at hcu
    have hG' := hG g'
    unfold gateHolders at hG' ⊢
    dsimp only
    omega
  case inr.inr.inr.inr.inr.inr.inr.inl =>
    have ht := task_lt_of_ne_done hB hT (by simp)
    have hcu := countBelow_update_le (fun s => decide (holdsGate s = some g')) c.tasks t
      .done c.nextTask ht (by simp [holdsGate])
    try dsimp only at hcu
    have hG' := hG g'
    unfold gateHolders at hG' ⊢
    dsimp only
    omega
  case inr.inr.inr.inr.inr.inr.inr.inr =>
    have ht := task_lt_of_ne_done hB hT (by simp)
    have hcu := countBelow_update_le (fun s => decide (holdsGate s = some g')) c.tasks t
      .failed c.nextTask ht (by simp [holdsGate])
    try dsimp only at hcu
    have hG' := hG g'
    unfold gateHolders at hG' ⊢
    dsimp only
    omega

theorem runFrom_preserve {env : Env} {limit : Nat} (P : CConfig → Prop)
    (hstep : ∀ a c c', step env limit a c = some c' → P c → P c') :
    ∀ (as : List Action) (c c' : CConfig), runFrom env limit c as = some c' → P c → P c' := by
  intro as
  induction as with
  | nil =>
    intro c c' h hP
    injection h with h1
    exact h1 ▸ hP
  | cons a as ih =>
    intro c c' h hP
    unfold runFrom at h
    cases hs : step env limit a c with
    | none => rw [hs] at h; simp at h
    | some c'' =>
      rw [hs] at h
      exact ih c'' c' h (hstep a c c'' hs hP)

/-! ### C1 — the concurrency bound -/

/-- C1 amended (corrected).  The admission gate bounds concurrency per
`_process_child_nodes` invocation — per parent fan-out batch: in every
configuration reachable from the start of a resolution, every gate ever
allocated has at most `limit` simultaneous holders (and in-flight fetches
hold their gate).  It is not a global cap: each nested fan-out allocates a
fresh `asyncio.Semaphore(max_concurrent)` (sandbox_content/api.py line 110),
so the traversal-wide number of in-flight fetches can exceed the configured
limit when collections nest (`per_parent_gate_not_global_bound`).  The flat
content flavor (`run_concurrent_fetches`) performs a single fan-out, for
which this per-gate bound is the global bound. -/
theorem gate_bound_invariant (env : Env) (limit : Nat) (root : String)
    (as : List Action) (c' : CConfig) (h : run env limit root as = some c') :
    ∀ g, gateHolders c' g ≤ limit := by
  have hinit : Bnd (initConfig root) ∧ ∀ g, gateHolders (initConfig root) g ≤ limit := by
    constructor
    · intro i hi
      unfold initConfig at hi ⊢
      dsimp only at hi ⊢
      rw [if_neg (by omega)]
    · intro g
      unfold gateHolders initConfig countBelow countBelow
      simp [holdsGate]
  exact (@runFrom_preserve env limit
    (fun c => Bnd c ∧ ∀ g, gateHolders c g ≤ limit)
    (fun a c c'' hs hP => ⟨step_Bnd hs hP.1, step_gateBound hs hP.1 hP.2⟩)
    as (initConfig root) c' h hinit).2

/-- Twenty leaf children for the nested collection of the C1 counterexample. -/
def kidsC1 : List String :=
  ["do_c1", "do_c2", "do_c3", "do_c4", "do_c5", "do_c6", "do_c7", "do_c8", "do_c9", "do_c10",
   "do_c11", "do_c12", "do_c13", "do_c14", "do_c15", "do_c16", "do_c17", "do_c18", "do_c19",
   "do_c20"]

/-- C1 counterexample graph: the root collection has a nested collection
child `do_a` (with 20 PDF leaves) and a leaf child `do_b`. -/
def envC1 : Env :=
  ("do_r", .ok { mimeType := COLLECTION_MIME_TYPE, leafNodes := ["do_a", "do_b"] }) ::
  ("do_a", .ok { mimeType := COLLECTION_MIME_TYPE, leafNodes := kidsC1 }) ::
  ("do_b", .ok { identifier := "b", mimeType := "application/pdf" }) ::
  kidsC1.map (fun s => (s, .ok { identifier := s, mimeType := "application/pdf" }))

/-- A legal schedule reaching 21 simultaneous fetches at limit 20: the root
spawns `do_a`/`do_b` under one semaphore; `do_a` completes its fetch and
gathers its 20 children under a fresh semaphore; `do_b` plus all 20
grandchildren then fetch at once. -/
def traceC1 : List Action :=
  [.fetchEnd 0, .start 1, .fetchEnd 1, .start 2] ++ (List.range' 3 20).map Action.start

/-- C1 counterexample.  With the default `concurrencyLimit = 20`, the
schedule `traceC1` on `envC1` is legal and reaches a configuration with 21
`MetadataFetcher` calls simultaneously in flight across the traversal: the
cap is per recursion batch, not global. -/
theorem per_parent_gate_not_global_bound :
    ((run envC1 20 "do_r" traceC1).map inFlight) = some 21 ∧ 20 < 21 :=
  ⟨rfl, by omega⟩

/-- Witness for `gate_bound_invariant`: along the very schedule that exceeds
the global reading of the bound, every individual gate still has at most 20
holders. -/
theorem gate_bound_invariant_witness :
    gateHolders ((run envC1 20 "do_r" traceC1).getD (initConfig "do_r")) 1 ≤ 20 :=
  gate_bound_invariant envC1 20 "do_r" traceC1
    ((run envC1 20 "do_r" traceC1).getD (initConfig "do_r")) (by rfl) 1

/-! ### C3 — dedup: every reachable identifier is fetched exactly once -/

/-- Whether the action, taken in configuration `c`, begins a fetch of `x`
(a `start` of a task for `x` whose visited-set check fails, so the id is
claimed and the fetch await entered). -/
def fetchStartFlag (c : CConfig) (a : Action) (x : String) : Nat :=
  match a with
  | .start t =>
    match c.tasks t with
    | .waitGate _ cid => if cid = x ∧ cid ∉ c.visited then 1 else 0
    | _ => 0
  | _ => 0

/-- Whether the action, taken in configuration `c`, appends a leaf item
originating from the fetch of `x` (a `fetchEnd` of a task fetching `x` whose
record parsed as a non-collection node). -/
def appendFlag (env : Env) (c : CConfig) (a : Action) (x : String) : Nat :=
  match a with
  | .fetchEnd t =>
    match c.tasks t with
    | .inFetch _ cid =>
      if cid = x then
        match envFetch env cid with
        | .ok content => if content.mimeType = COLLECTION_MIME_TYPE then 0 else 1
        | _ => 0
      else 0
    | _ => 0
  | _ => 0

/-- Number of fetches of `x` started along a legal action sequence. -/
def fetchStarts (env : Env) (limit : Nat) : CConfig → List Action → String → Nat
  | _, [], _ => 0
  | c, a :: as, x =>
    match step env limit a c with
    | some c' => fetchStartFlag c a x + fetchStarts env limit c' as x
    | none => 0

/-- Number of leaf items appended for `x` along a legal action sequence. -/
def appendEvents (env : Env) (limit : Nat) : CConfig → List Action → String → Nat
  | _, [], _ => 0
  | c, a :: as, x =>
    match step env limit a c with
    | some c' => appendFlag env c a x + appendEvents env limit c' as x
    | none => 0

/-- Total number of fetches of `x` in the run for `root`: the root's own
(ungated) fetch, entered before the trace begins, plus the trace's fetch
starts. -/
def fetchEvents (env : Env) (limit : Nat) (root : String) (as : List Action) (x : String) :
    Nat :=
  (if x = root then 1 else 0) + fetchStarts env limit (initConfig root) as x

/-- The children the traversal discovers from the record of `x`. -/
def childrenOf (env : Env) (x : String) : List String :=
  match envFetch env x with
  | .ok content =>
      if content.mimeType = COLLECTION_MIME_TYPE then content.leafNodes else []
  | _ => []

/-- Identifiers reachable from the root along discovered-children edges. -/
inductive Reach (env : Env) (root : String) : String → Prop where
  | root : Reach env root root
  | child {p y : String} : Reach env root p → y ∈ childrenOf env p → Reach env root y

/-- Some live task is suspended in a fetch of `x`. -/
def FetchPending (c : CConfig) (x : String) : Prop :=
  ∃ t, t < c.nextTask ∧ ∃ g, c.tasks t = .inFetch g x

/-- Some live task for `x` is waiting at its gate. -/
def WaitPending (c : CConfig) (x : String) : Prop :=
  ∃ t, t < c.nextTask ∧ ∃ g, c.tasks t = .waitGate g x

/-- `x` has been discovered: visited, or a spawned task for it exists. -/
def Discovered (c : CConfig) (x : String) : Prop :=
  x ∈ c.visited ∨ WaitPending c x

/-- The progress invariant tying the visited set to the graph: a visited
identifier is either still being fetched, or its fetch has completed and all
its children have been discovered. -/
def TotalInv (env : Env) (c : CConfig) (x : String) : Prop :=
  x ∈ c.visited → FetchPending c x ∨ ∀ y ∈ childrenOf env x, Discovered c y

theorem updateTask_other {tasks : Nat → TaskState} {t t' : Nat} (hne : t ≠ t')
    (v : TaskState) : updateTask tasks t' v t = tasks t := by
  unfold updateTask
  rw [if_neg hne]

theorem updateTask_self (tasks : Nat → TaskState) (t : Nat) (v : TaskState) :
    updateTask tasks t v t = v := by
  unfold updateTask
  rw [if_pos rfl]

theorem spawnTasks_below {tasks : Nat → TaskState} {base : Nat} {gate : Nat}
    {cs : List String} {t : Nat} (ht : t < base) :
    spawnTasks tasks base gate cs t = tasks t := by
  unfold spawnTasks
  rw [if_neg (by omega)]

theorem step_discovered {env : Env} {limit : Nat} {a : Action} {c c' : CConfig}
    (h : step env limit a c = some c') {x : String}
    (hD : Discovered c x) : Discovered c' x := by
  rcases hD with hx | ⟨t, ht, g, hT⟩
  · exact Or.inl (step_visited_sub h hx)
  rcases step_shapes h with
    ⟨t', g', cid, -, hT', hlim, hvis, rfl⟩ | ⟨t', g', cid, -, hT', hlim, hvis, rfl⟩ |
    ⟨t', og, cid, m, -, hT', hf, rfl⟩ | ⟨t', og, cid, code, body, -, hT', hf, rfl⟩ |
    ⟨t', og, cid, content, -, hT', hf, hm, hn, rfl⟩ |
    ⟨t', og, cid, content, -, hT', hf, hm, hn, rfl⟩ |
    ⟨t', og, cid, content, -, hT', hf, hm, rfl⟩ | ⟨t', og, ch, -, hT', hall, rfl⟩ |
    ⟨t', og, ch, -, hT', hany, rfl⟩
  ·
    by_cases hts : t = t'
    · subst hts
      rw [hT] at hT'
      injection hT' with h1 h2
      subst h2
      exact Or.inl hvis
    · exact Or.inr ⟨t, ht, g, (updateTask_other hts _).trans hT⟩
  ·
    by_cases hts : t = t'
    · subst hts
      rw [hT] at hT'
      injection hT' with h1 h2
      subst h2
      exact Or.inl (List.mem_cons_self x _)
    · exact Or.inr ⟨t, ht, g, (updateTask_other hts _).trans hT⟩
  ·
    have hts : t ≠ t' := fun hc => by
      subst hc
      rw [hT] at hT'
      exact TaskState.noConfusion hT'
    exact Or.inr ⟨t, ht, g, (updateTask_other hts _).trans hT⟩
  ·
    have hts : t ≠ t' := fun hc => by
      subst hc
      rw [hT] at hT'
      exact TaskState.noConfusion hT'
    exact Or.inr ⟨t, ht, g, (updateTask_other hts _).trans hT⟩
  ·
    have hts : t ≠ t' := fun hc => by
      subst hc
      rw [hT] at hT'
      exact TaskState.noConfusion hT'
    exact Or.inr ⟨t, ht, g, (updateTask_other hts _).trans hT⟩
  ·
    have hts : t ≠ t' := fun hc => by
      subst hc
      rw [hT] at hT'
      exact TaskState.noConfusion hT'
    exact Or.inr ⟨t, by dsimp only; omega, g,
      ((spawnTasks_below ht).trans ((updateTask_other hts _).trans hT))⟩
  ·
    have hts : t ≠ t' := fun hc => by
      subst hc
      rw [hT] at hT'
      exact TaskState.noConfusion hT'
    exact Or.inr ⟨t, ht, g, (updateTask_other hts _).trans hT⟩
  ·
    have hts : t ≠ t' := fun hc => by
      subst hc
      rw [hT] at hT'
      exact TaskState.noConfusion hT'
    exact Or.inr ⟨t, ht, g, (updateTask_other hts _).trans hT⟩
  ·
    have hts : t ≠ t' := fun hc => by
      subst hc
      rw [hT] at hT'
      exact TaskState.noConfusion hT'
    exact Or.inr ⟨t, ht, g, (updateTask_other hts _).trans hT⟩

theorem childrenOf_of_ok {env : Env} {x : String} {content : RawContent}
    (hf : envFetch env x = .ok content) :
    childrenOf env x =
      if content.mimeType = COLLECTION_MIME_TYPE then content.leafNodes else [] := by
  unfold childrenOf
  rw [hf]

theorem childrenOf_of_status {env : Env} {x : String} {code : Nat} {body : String}
    (hf : envFetch env x = .status code body) : childrenOf env x = [] := by
  unfold childrenOf
  rw [hf]

theorem childrenOf_of_exn {env : Env} {x : String} {m : String}
    (hf : envFetch env x = .exn m) : childrenOf env x = [] := by
  unfold childrenOf
  rw [hf]

/-- After a collection fetch completes, each child has a freshly spawned
waiting task. -/
theorem spawn_discovers {c : CConfig} {t : Nat} {og : Option Nat}
    {content : RawContent} {y : String} (hy : y ∈ content.leafNodes) :
    WaitPending
      { c with
        tasks := spawnTasks
          (updateTask c.tasks t
            (.joining og (List.range' c.nextTask content.leafNodes.length)))
          c.nextTask c.nextGate content.leafNodes,
        nextTask := c.nextTask + content.leafNodes.length,
        nextGate := c.nextGate + 1 } y := by
  obtain ⟨i, hi, hiy⟩ := List.mem_iff_getElem.1 hy
  refine ⟨c.nextTask + i, by dsimp only; omega, c.nextGate, ?_⟩
  show spawnTasks _ c.nextTask c.nextGate content.leafNodes (c.nextTask + i) = _
  unfold spawnTasks
  rw [if_pos ⟨by omega, by omega⟩]
  rw [show c.nextTask + i - c.nextTask = i from by omega]
  rw [List.getD_eq_getElem content.leafNodes "" hi, hiy]

theorem step_totalInv {env : Env} {limit : Nat} {a : Action} {c c' : CConfig}
    (h : step env limit a c = some c') (hB : Bnd c) {x : String}
    (hI : TotalInv env c x) : TotalInv env c' x := by
  intro hx'
  by_cases hx : x ∈ c.visited
  · rcases hI hx with ⟨t, ht, g, hT⟩ | hchild
    · rcases step_shapes h with
        ⟨t', g', cid, -, hT', hlim, hvis, rfl⟩ | ⟨t', g', cid, -, hT', hlim, hvis, rfl⟩ |
        ⟨t', og, cid, m, -, hT', hf, rfl⟩ | ⟨t', og, cid, code, body, -, hT', hf, rfl⟩ |
        ⟨t', og, cid, content, -, hT', hf, hm, hn, rfl⟩ |
        ⟨t', og, cid, content, -, hT', hf, hm, hn, rfl⟩ |
        ⟨t', og, cid, content, -, hT', hf, hm, rfl⟩ | ⟨t', og, ch, -, hT', hall, rfl⟩ |
        ⟨t', og, ch, -, hT', hany, rfl⟩
      · have hts : t ≠ t' := fun hc => by
          subst hc
          rw [hT] at hT'
          exact TaskState.noConfusion hT'
        exact Or.inl ⟨t, ht, g, (updateTask_other hts _).trans hT⟩
      · have hts : t ≠ t' := fun hc => by
          subst hc
          rw [hT] at hT'
          exact TaskState.noConfusion hT'
        exact Or.inl ⟨t, ht, g, (updateTask_other hts _).trans hT⟩
      · by_cases hts : t = t'
        · subst hts
          rw [hT] at hT'
          injection hT' with h1 h2
          subst h2
          refine Or.inr (fun y hy => ?_)
          rw [childrenOf_of_exn hf] at hy
          simp at hy
        · exact Or.inl ⟨t, ht, g, (updateTask_other hts _).trans hT⟩
      · by_cases hts : t = t'
        · subst hts
          rw [hT] at hT'
          injection hT' with h1 h2
          subst h2
          refine Or.inr (fun y hy => ?_)
          rw [childrenOf_of_status hf] at hy
          simp at hy
        · exact Or.inl ⟨t, ht, g, (updateTask_other hts _).trans hT⟩
      · by_cases hts : t = t'
        · subst hts
          rw [hT] at hT'
          injection hT' with h1 h2
          subst h2
          refine Or.inr (fun y hy => ?_)
          rw [childrenOf_of_ok hf, if_pos hm, hn] at hy
          simp at hy
        · exact Or.inl ⟨t, ht, g, (updateTask_other hts _).trans hT⟩
      · by_cases hts : t = t'
        · subst hts
          rw [hT] at hT'
          injection hT' with h1 h2
          subst h2
          refine Or.inr (fun y hy => ?_)
          rw [childrenOf_of_ok hf, if_pos hm] at hy
          exact Or.inr (spawn_discovers hy)
        · refine Or.inl ⟨t, by dsimp only; omega, g, ?_⟩
          exact (spawnTasks_below ht).trans ((updateTask_other hts _).trans hT)
      · by_cases hts : t = t'
        · subst hts
          rw [hT] at hT'
          injection hT' with h1 h2
          subst h2
          refine Or.inr (fun y hy => ?_)
          rw [childrenOf_of_ok hf, if_neg hm] at hy
          simp at hy
        · exact Or.inl ⟨t, ht, g, (updateTask_other hts _).trans hT⟩
      · have hts : t ≠ t' := fun hc => by
          subst hc
          rw [hT] at hT'
          exact TaskState.noConfusion hT'
        exact Or.inl ⟨t, ht, g, (updateTask_other hts _).trans hT⟩
      · have hts : t ≠ t' := fun hc => by
          subst hc
          rw [hT] at hT'
          exact TaskState.noConfusion hT'
        exact Or.inl ⟨t, ht, g, (updateTask_other hts _).trans hT⟩
    · exact Or.inr (fun y hy => step_discovered h (hchild y hy))
  · rcases step_shapes h with
      ⟨t', g', cid, -, hT', hlim, hvis, rfl⟩ | ⟨t', g', cid, -, hT', hlim, hvis, rfl⟩ |
      ⟨t', og, cid, m, -, hT', hf, rfl⟩ | ⟨t', og, cid, code, body, -, hT', hf, rfl⟩ |
      ⟨t', og, cid, content, -, hT', hf, hm, hn, rfl⟩ |
      ⟨t', og, cid, content, -, hT', hf, hm, hn, rfl⟩ |
      ⟨t', og, cid, content, -, hT', hf, hm, rfl⟩ | ⟨t', og, ch, -, hT', hall, rfl⟩ |
      ⟨t', og, ch, -, hT', hany, rfl⟩
    · exact absurd hx' hx
    · have hxc : x = cid := by
        rcases List.mem_cons.1 hx' with h1 | h1
        · exact h1
        · exact absurd h1 hx
      subst hxc
      have ht' : t' < c.nextTask := task_lt_of_ne_done hB hT' (by simp)
      exact Or.inl ⟨t', ht', some g', updateTask_self c.tasks t' _⟩
    · exact absurd hx' hx
    · exact absurd hx' hx
    · exact absurd hx' hx
    · exact absurd hx' hx
    · exact absurd hx' hx
    · exact absurd hx' hx
    · exact absurd hx' hx

/-! #### Counting fetches and appends along a run -/

/-- Whether a task is suspended in a fetch of `x`. -/
def fetchingFor (x : String) : TaskState → Bool
  | .inFetch _ cid => decide (cid = x)
  | _ => false

theorem inFetchCount_eq (c : CConfig) (x : String) :
    inFetchCount c x = countBelow (fun i => fetchingFor x (c.tasks i)) c.nextTask := rfl

/-- Fetch slots still to be consumed for `x`: in-flight fetches of `x`, plus
one if the dedup guard has not yet recorded `x`. -/
def fetchPotential (c : CConfig) (x : String) : Nat :=
  inFetchCount c x + (if x ∈ c.visited then 0 else 1)

theorem countBelow_update_release (q : TaskState → Bool) (tasks : Nat → TaskState) (t : Nat)
    (v : TaskState) (n : Nat) (ht : t < n) (hold : q (tasks t) = true) (hnew : q v = false) :
    countBelow (fun i => q (updateTask tasks t v i)) n + 1 =
      countBelow (fun i => q (tasks i)) n := by
  have h := countBelow_update q tasks t v n ht
  rw [hold, hnew] at h
  simp only [show (if false = true then (1:Nat) else 0) = 0 from rfl, if_true] at h
  omega

theorem fetchStartFlag_eq_zero_of_visited {c : CConfig} {a : Action} {x : String}
    (hx : x ∈ c.visited) : fetchStartFlag c a x = 0 := by
  unfold fetchStartFlag
  cases a with
  | start t =>
    dsimp only
    cases hts : c.tasks t with
    | waitGate g cid =>
      dsimp only
      rw [if_neg]
      rintro ⟨rfl, hnv⟩
      exact hnv hx
    | inFetch og cid => rfl
    | joining og ch => rfl
    | done => rfl
    | failed => rfl
  | fetchEnd t => rfl
  | joinEnd t => rfl
  | joinFail t => rfl

theorem fetchStartFlag_le_one (c : CConfig) (a : Action) (x : String) :
    fetchStartFlag c a x ≤ 1 := by
  unfold fetchStartFlag
  cases a with
  | start t =>
    dsimp only
    cases hts : c.tasks t with
    | waitGate g cid =>
      dsimp only
      split_ifs <;> omega
    | inFetch og cid => exact Nat.zero_le 1
    | joining og ch => exact Nat.zero_le 1
    | done => exact Nat.zero_le 1
    | failed => exact Nat.zero_le 1
  | fetchEnd t => exact Nat.zero_le 1
  | joinEnd t => exact Nat.zero_le 1
  | joinFail t => exact Nat.zero_le 1

/-- Once `x` is in the visited set, no further fetch of `x` ever starts. -/
theorem fetchStarts_zero_of_visited {env : Env} {limit : Nat} {x : String} :
    ∀ (as : List Action) (c : CConfig), x ∈ c.visited →
      fetchStarts env limit c as x = 0 := by
  intro as
  induction as with
  | nil => intro c _; rfl
  | cons a as ih =>
    intro c hx
    unfold fetchStarts
    cases hs : step env limit a c with
    | none => rfl
    | some c' =>
      dsimp only
      rw [fetchStartFlag_eq_zero_of_visited hx, ih c' (step_visited_sub hs hx)]

/-- A step whose fetch-start flag fires moves `x` from unvisited to visited. -/
theorem fetchStartFlag_pos {env : Env} {limit : Nat} {a : Action} {c c' : CConfig}
    {x : String} (h : step env limit a c = some c')
    (hf : fetchStartFlag c a x ≠ 0) : x ∉ c.visited ∧ x ∈ c'.visited := by
  cases a with
  | start t =>
    unfold fetchStartFlag at hf
    dsimp only at hf
    cases hts : c.tasks t with
    | waitGate g cid =>
      rw [hts] at hf
      dsimp only at hf
      split_ifs at hf with hcond
      · obtain ⟨rfl, hnv⟩ := hcond
        rcases step_shapes h with
          ⟨t', g', cid', heq, hT', hlim, hvis, rfl⟩ | ⟨t', g', cid', heq, hT', hlim, hvis, rfl⟩ |
          ⟨t', og, cid', m, heq, hT', hf', rfl⟩ | ⟨t', og, cid', code, body, heq, hT', hf', rfl⟩ |
          ⟨t', og, cid', content, heq, hT', hf', hm, hn, rfl⟩ |
          ⟨t', og, cid', content, heq, hT', hf', hm, hn, rfl⟩ |
          ⟨t', og, cid', content, heq, hT', hf', hm, rfl⟩ | ⟨t', og, ch, heq, hT', hall, rfl⟩ |
          ⟨t', og, ch, heq, hT', hany, rfl⟩
        · injection heq with ht'
          subst ht'
          rw [hts] at hT'
          injection hT' with h1 h2
          subst h2
          exact absurd hvis hnv
        · injection heq with ht'
          subst ht'
          rw [hts] at hT'
          injection hT' with h1 h2
          subst h2
          exact ⟨hnv, List.mem_cons_self _ _⟩
        · exact Action.noConfusion heq
        · exact Action.noConfusion heq
        · exact Action.noConfusion heq
        · exact Action.noConfusion heq
        · exact Action.noConfusion heq
        · exact Action.noConfusion heq
        · exact Action.noConfusion heq
      · exact absurd rfl hf
    | inFetch og cid => rw [hts] at hf; exact absurd rfl hf
    | joining og ch => rw [hts] at hf; exact absurd rfl hf
    | done => rw [hts] at hf; exact absurd rfl hf
    | failed => rw [hts] at hf; exact absurd rfl hf
  | fetchEnd t => exact absurd rfl hf
  | joinEnd t => exact absurd rfl hf
  | joinFail t => exact absurd rfl hf

/-- Along any legal schedule, at most one fetch of `x` ever starts: the
`visited_ids` guard dedups. -/
theorem fetchStarts_le_one {env : Env} {limit : Nat} {x : String} :
    ∀ (as : List Action) (c : CConfig), fetchStarts env limit c as x ≤ 1 := by
  intro as
  induction as with
  | nil => intro c; exact Nat.zero_le 1
  | cons a as ih =>
    intro c
    unfold fetchStarts
    cases hs : step env limit a c with
    | none => exact Nat.zero_le 1
    | some c' =>
      dsimp only
      by_cases hfz : fetchStartFlag c a x = 0
      · rw [hfz, Nat.zero_add]
        exact ih c'
      · have hv := (fetchStartFlag_pos hs hfz).2
        rw [fetchStarts_zero_of_visited as c' hv]
        have hle := fetchStartFlag_le_one c a x
        omega

/-- A step that puts `x` into the visited set fires the fetch-start flag. -/
theorem step_new_visited {env : Env} {limit : Nat} {a : Action} {c c' : CConfig} {x : String}
    (h : step env limit a c = some c') (hx' : x ∈ c'.visited) (hx : x ∉ c.visited) :
    fetchStartFlag c a x = 1 := by
  rcases step_shapes h with
    ⟨t, g, cid, rfl, hT, hlim, hvis, rfl⟩ | ⟨t, g, cid, rfl, hT, hlim, hvis, rfl⟩ |
    ⟨t, og, cid, m, rfl, hT, hf, rfl⟩ | ⟨t, og, cid, code, body, rfl, hT, hf, rfl⟩ |
    ⟨t, og, cid, content, rfl, hT, hf, hm, hn, rfl⟩ |
    ⟨t, og, cid, content, rfl, hT, hf, hm, hn, rfl⟩ |
    ⟨t, og, cid, content, rfl, hT, hf, hm, rfl⟩ | ⟨t, og, ch, rfl, hT, hall, rfl⟩ |
    ⟨t, og, ch, rfl, hT, hany, rfl⟩
  · exact absurd hx' hx
  · have hxc : x = cid := by
      rcases List.mem_cons.1 hx' with h1 | h1
      · exact h1
      · exact absurd h1 hx
    subst hxc
    unfold fetchStartFlag
    dsimp only
    rw [hT]
    dsimp only
    rw [if_pos ⟨rfl, hx⟩]
  · exact absurd hx' hx
  · exact absurd hx' hx
  · exact absurd hx' hx
  · exact absurd hx' hx
  · exact absurd hx' hx
  · exact absurd hx' hx
  · exact absurd hx' hx

/-- An identifier visited at the end of a run was visited at the start or had
a fetch started along the way. -/
theorem visited_origin {env : Env} {limit : Nat} {x : String} :
    ∀ (as : List Action) (c c' : CConfig), runFrom env limit c as = some c' →
      x ∈ c'.visited → x ∈ c.visited ∨ 1 ≤ fetchStarts env limit c as x := by
  intro as
  induction as with
  | nil =>
    intro c c' h hx
    injection h with h1
    exact Or.inl (h1 ▸ hx)
  | cons a as ih =>
    intro c c' h hx
    unfold runFrom at h
    cases hs : step env limit a c with
    | none => rw [hs] at h; simp at h
    | some c'' =>
      rw [hs] at h
      by_cases hxc : x ∈ c.visited
      · exact Or.inl hxc
      · refine Or.inr ?_
        unfold fetchStarts
        rw [hs]
        dsimp only
        rcases ih c'' c' h hx with hv | hge
        · rw [step_new_visited hs hv hxc]
          omega
        · omega

/-- Spawning fresh `waitGate` tasks and parking the parent in `joining` never
increases the number of in-flight fetches of `x`. -/
theorem spawn_inFetchCount_le {c : CConfig} {t : Nat} {og : Option Nat}
    {cs : List String} {gate : Nat} {x : String} (ht : t < c.nextTask) :
    countBelow
      (fun i => fetchingFor x
        (spawnTasks (updateTask c.tasks t (.joining og (List.range' c.nextTask cs.length)))
          c.nextTask gate cs i))
      (c.nextTask + cs.length) ≤
      countBelow (fun i => fetchingFor x (c.tasks i)) c.nextTask := by
  have h1 := countBelow_ext_zero
    (fun i => fetchingFor x
      (spawnTasks (updateTask c.tasks t (.joining og (List.range' c.nextTask cs.length)))
        c.nextTask gate cs i))
    c.nextTask cs.length (fun i hi1 hi2 => by
      simp only [spawnTasks]
      rw [if_pos ⟨hi1, hi2⟩]
      rfl)
  have h2 : countBelow
      (fun i => fetchingFor x
        (spawnTasks (updateTask c.tasks t (.joining og (List.range' c.nextTask cs.length)))
          c.nextTask gate cs i))
      c.nextTask =
      countBelow
        (fun i => fetchingFor x
          (updateTask c.tasks t (.joining og (List.range' c.nextTask cs.length)) i))
        c.nextTask :=
    countBelow_congr c.nextTask (fun i hi => by
      rw [spawnTasks_below hi])
  have h3 := countBelow_update_le (fetchingFor x) c.tasks t
    (.joining og (List.range' c.nextTask cs.length)) c.nextTask ht rfl
  rw [h1, h2]
  exact h3

/-- One step consumes at least as much fetch potential for `x` as the number
of leaf items it appends for `x`. -/
theorem step_append_bound {env : Env} {limit : Nat} {a : Action} {c c' : CConfig}
    (h : step env limit a c = some c') (hB : Bnd c) (x : String) :
    appendFlag env c a x + fetchPotential c' x ≤ fetchPotential c x := by
  rcases step_shapes h with
    ⟨t, g, cid, rfl, hT, hlim, hvis, rfl⟩ | ⟨t, g, cid, rfl, hT, hlim, hvis, rfl⟩ |
    ⟨t, og, cid, m, rfl, hT, hf, rfl⟩ | ⟨t, og, cid, code, body, rfl, hT, hf, rfl⟩ |
    ⟨t, og, cid, content, rfl, hT, hf, hm, hn, rfl⟩ |
    ⟨t, og, cid, content, rfl, hT, hf, hm, hn, rfl⟩ |
    ⟨t, og, cid, content, rfl, hT, hf, hm, rfl⟩ | ⟨t, og, ch, rfl, hT, hall, rfl⟩ |
    ⟨t, og, ch, rfl, hT, hany, rfl⟩
  · have hA : appendFlag env c (.start t) x = 0 := rfl
    rw [hA, Nat.zero_add]
    unfold fetchPotential
    rw [inFetchCount_eq, inFetchCount_eq]
    dsimp only
    have ht := task_lt_of_ne_done hB hT (by simp)
    rw [countBelow_update_keep (fetchingFor x) c.tasks t .done c.nextTask ht
      (by rw [hT]; rfl)]
  · have hA : appendFlag env c (.start t) x = 0 := rfl
    rw [hA, Nat.zero_add]
    unfold fetchPotential
    rw [inFetchCount_eq, inFetchCount_eq]
    dsimp only
    have ht := task_lt_of_ne_done hB hT (by simp)
    by_cases hcx : cid = x
    · rw [countBelow_update_acquire (fetchingFor x) c.tasks t (.inFetch (some g) cid)
        c.nextTask ht (by rw [hT]; rfl) (by simp [fetchingFor, hcx])]
      rw [if_pos (show x ∈ cid :: c.visited from by rw [hcx]; exact List.mem_cons_self _ _)]
      rw [if_neg (show x ∉ c.visited from hcx ▸ hvis)]
    · rw [countBelow_update_keep (fetchingFor x) c.tasks t (.inFetch (some g) cid)
        c.nextTask ht (by rw [hT]; simp [fetchingFor, hcx])]
      by_cases hxv : x ∈ c.visited
      · rw [if_pos hxv, if_pos (List.mem_cons_of_mem _ hxv)]
      · rw [if_neg hxv, if_neg (show x ∉ cid :: c.visited from by
          intro hmem
          rcases List.mem_cons.1 hmem with h1 | h1
          · exact hcx h1.symm
          · exact hxv h1)]
  · have hA : appendFlag env c (.fetchEnd t) x = 0 := by
      unfold appendFlag
      dsimp only
      rw [hT]
      dsimp only
      by_cases hcx : cid = x
      · rw [if_pos hcx, hf]
      · rw [if_neg hcx]
    rw [hA, Nat.zero_add]
    unfold fetchPotential
    rw [inFetchCount_eq, inFetchCount_eq]
    dsimp only
    have ht := task_lt_of_ne_done hB hT (by simp)
    exact Nat.add_le_add_right
      (countBelow_update_le (fetchingFor x) c.tasks t .failed c.nextTask ht rfl) _
  · have hA : appendFlag env c (.fetchEnd t) x = 0 := by
      unfold appendFlag
      dsimp only
      rw [hT]
      dsimp only
      by_cases hcx : cid = x
      · rw [if_pos hcx, hf]
      · rw [if_neg hcx]
    rw [hA, Nat.zero_add]
    unfold fetchPotential
    rw [inFetchCount_eq, inFetchCount_eq]
    dsimp only
    have ht := task_lt_of_ne_done hB hT (by simp)
    exact Nat.add_le_add_right
      (countBelow_update_le (fetchingFor x) c.tasks t .done c.nextTask ht rfl) _
  · have hA : appendFlag env c (.fetchEnd t) x = 0 := by
      unfold appendFlag
      dsimp only
      rw [hT]
      dsimp only
      by_cases hcx : cid = x
      · rw [if_pos hcx, hf]
        dsimp only
        rw [if_pos hm]
      · rw [if_neg hcx]
    rw [hA, Nat.zero_add]
    unfold fetchPotential
    rw [inFetchCount_eq, inFetchCount_eq]
    dsimp only
    have ht := task_lt_of_ne_done hB hT (by simp)
    exact Nat.add_le_add_right
      (countBelow_update_le (fetchingFor x) c.tasks t .done c.nextTask ht rfl) _
  · have hA : appendFlag env c (.fetchEnd t) x = 0 := by
      unfold appendFlag
      dsimp only
      rw [hT]
      dsimp only
      by_cases hcx : cid = x
      · rw [if_pos hcx, hf]
        dsimp only
        rw [if_pos hm]
      · rw [if_neg hcx]
    rw [hA, Nat.zero_add]
    unfold fetchPotential
    rw [inFetchCount_eq, inFetchCount_eq]
    dsimp only
    have ht := task_lt_of_ne_done hB hT (by simp)
    exact Nat.add_le_add_right (spawn_inFetchCount_le ht) _
  · have ht := task_lt_of_ne_done hB hT (by simp)
    unfold fetchPotential
    rw [inFetchCount_eq, inFetchCount_eq]
    dsimp only
    by_cases hcx : cid = x
    · have hA : appendFlag env c (.fetchEnd t) x = 1 := by
        unfold appendFlag
        dsimp only
        rw [hT]
        dsimp only
        rw [if_pos hcx, hf]
        dsimp only
        rw [if_neg hm]
      rw [hA]
      have hrel := countBelow_update_release (fetchingFor x) c.tasks t .done c.nextTask ht
        (by rw [hT]; simp [fetchingFor, hcx]) rfl
      generalize (if x ∈ c.visited then (0:Nat) else 1) = w
      omega
    · have hA : appendFlag env c (.fetchEnd t) x = 0 := by
        unfold appendFlag
        dsimp only
        rw [hT]
        dsimp only
        rw [if_neg hcx]
      rw [hA, Nat.zero_add]
      exact Nat.add_le_add_right
        (countBelow_update_le (fetchingFor x) c.tasks t .done c.nextTask ht rfl) _
  · have hA : appendFlag env c (.joinEnd t) x = 0 := rfl
    rw [hA, Nat.zero_add]
    unfold fetchPotential
    rw [inFetchCount_eq, inFetchCount_eq]
    dsimp only
    have ht := task_lt_of_ne_done hB hT (by simp)
    rw [countBelow_update_keep (fetchingFor x) c.tasks t .done c.nextTask ht
      (by rw [hT]; rfl)]
  · have hA : appendFlag env c (.joinFail t) x = 0 := rfl
    rw [hA, Nat.zero_add]
    unfold fetchPotential
    rw [inFetchCount_eq, inFetchCount_eq]
    dsimp only
    have ht := task_lt_of_ne_done hB hT (by simp)
    rw [countBelow_update_keep (fetchingFor x) c.tasks t .failed c.nextTask ht
      (by rw [hT]; rfl)]

/-- Along a legal schedule, the leaf appends for `x` are bounded by the fetch
potential of the starting configuration. -/
theorem appendEvents_le {env : Env} {limit : Nat} {x : String} :
    ∀ (as : List Action) (c : CConfig), Bnd c →
      appendEvents env limit c as x ≤ fetchPotential c x := by
  intro as
  induction as with
  | nil => intro c _; exact Nat.zero_le _
  | cons a as ih =>
    intro c hB
    unfold appendEvents
    cases hs : step env limit a c with
    | none => exact Nat.zero_le _
    | some c' =>
      dsimp only
      have h1 := step_append_bound hs hB x
      have h2 := ih c' (step_Bnd hs hB)
      omega

theorem initConfig_Bnd (root : String) : Bnd (initConfig root) := by
  intro i hi
  have h1 : 1 ≤ i := hi
  unfold initConfig
  dsimp only
  rw [if_neg (by omega)]

theorem fetchPotential_init (root x : String) : fetchPotential (initConfig root) x = 1 := by
  have hcount : inFetchCount (initConfig root) x = if x = root then 1 else 0 := by
    rw [inFetchCount_eq]
    show 0 + (if fetchingFor x ((initConfig root).tasks 0) = true then 1 else 0) =
      if x = root then 1 else 0
    have htask : (initConfig root).tasks 0 = TaskState.inFetch none root := rfl
    have hff : fetchingFor x (TaskState.inFetch none root) = decide (root = x) := rfl
    rw [htask, hff, Nat.zero_add]
    by_cases hx : x = root
    · rw [if_pos hx, if_pos (by rw [hx]; simp)]
    · rw [if_neg hx, if_neg (by
        simp only [decide_eq_true_eq]
        exact fun h1 => hx h1.symm)]
  have hvis : (if x ∈ (initConfig root).visited then (0:Nat) else 1) =
      if x = root then 0 else 1 := by
    unfold initConfig
    dsimp only
    by_cases hx : x = root
    · rw [if_pos hx, if_pos (by rw [hx]; exact List.mem_cons_self _ _)]
    · rw [if_neg hx, if_neg (by
        intro hmem
        rcases List.mem_cons.1 hmem with h1 | h1
        · exact hx h1
        · exact absurd h1 (List.not_mem_nil x))]
  unfold fetchPotential
  rw [hcount, hvis]
  by_cases hx : x = root
  · rw [if_pos hx, if_pos hx]
  · rw [if_neg hx, if_neg hx]

/-- The combined run invariant: live-task bound, root recorded, and the
visited-to-children progress invariant for every identifier. -/
theorem run_invariants {env : Env} {limit : Nat} {root : String} {as : List Action}
    {c : CConfig} (h : run env limit root as = some c) :
    Bnd c ∧ root ∈ c.visited ∧ ∀ x, TotalInv env c x := by
  refine runFrom_preserve
    (fun d => Bnd d ∧ root ∈ d.visited ∧ ∀ x, TotalInv env d x)
    (fun a d d' hs hP => ⟨step_Bnd hs hP.1, step_visited_sub hs hP.2.1,
      fun x => step_totalInv hs hP.1 (hP.2.2 x)⟩)
    as (initConfig root) c h ⟨initConfig_Bnd root, List.mem_cons_self _ _, ?_⟩
  intro x hx
  have hxr : x = root := by
    rcases List.mem_cons.1 hx with h1 | h1
    · exact h1
    · exact absurd h1 (List.not_mem_nil x)
  subst hxr
  exact Or.inl ⟨0, Nat.zero_lt_one, none, rfl⟩

/-- In a drained configuration, the visited set is closed under discovered
children. -/
theorem complete_closed {env : Env} {c : CConfig}
    (hcomplete : Complete c) (hTI : ∀ x, TotalInv env c x)
    {p : String} (hp : p ∈ c.visited) {y : String} (hy : y ∈ childrenOf env p) :
    y ∈ c.visited := by
  rcases hTI p hp with ⟨t, ht, g, hT⟩ | hch
  · have hterm := hcomplete t ht
    rw [hT] at hterm
    exact Bool.noConfusion hterm
  · rcases hch y hy with hv | ⟨t, ht, g, hT⟩
    · exact hv
    · have hterm := hcomplete t ht
      rw [hT] at hterm
      exact Bool.noConfusion hterm

/-- Every identifier reachable from the root is visited once the traversal
has drained. -/
theorem reach_visited {env : Env} {c : CConfig} (hcomplete : Complete c)
    (hTI : ∀ x, TotalInv env c x) {root : String} (hroot : root ∈ c.visited) :
    ∀ {x : String}, Reach env root x → x ∈ c.visited := by
  intro x hr
  induction hr with
  | root => exact hroot
  | child hp hy ih => exact complete_closed hcomplete hTI ih hy

/-- C3: the `visited_ids` dedup guard of `_process_content` (membership test
and insertion with no suspension point between them): along any legal
interleaving of the concurrent traversal tasks that drains completely, every
identifier reachable from the root — in particular one referenced by two
distinct parent collections — has its metadata fetched exactly once, and at
most one leaf item is appended for it. -/
theorem sandbox_dedup_exactly_once {env : Env} {limit : Nat} {root : String}
    {as : List Action} {c : CConfig} {x : String}
    (hrun : run env limit root as = some c) (hcomplete : Complete c)
    (hreach : Reach env root x) :
    fetchEvents env limit root as x = 1 ∧
      appendEvents env limit (initConfig root) as x ≤ 1 := by
  obtain ⟨-, hroot, hTI⟩ := run_invariants hrun
  have hxv : x ∈ c.visited := reach_visited hcomplete hTI hroot hreach
  constructor
  · unfold fetchEvents
    by_cases hx : x = root
    · rw [if_pos hx]
      have hz : fetchStarts env limit (initConfig root) as x = 0 :=
        fetchStarts_zero_of_visited as (initConfig root)
          (by rw [hx]; exact List.mem_cons_self _ _)
      rw [hz]
    · rw [if_neg hx]
      have hup : fetchStarts env limit (initConfig root) as x ≤ 1 :=
        fetchStarts_le_one as (initConfig root)
      have hlow : 1 ≤ fetchStarts env limit (initConfig root) as x := by
        rcases visited_origin as (initConfig root) c hrun hxv with hv | hge
        · refine absurd ?_ hx
          rcases List.mem_cons.1 hv with h1 | h1
          · exact h1
          · exact absurd h1 (List.not_mem_nil x)
        · exact hge
      omega
  · have h1 : appendEvents env limit (initConfig root) as x ≤
        fetchPotential (initConfig root) x :=
      appendEvents_le as (initConfig root) (initConfig_Bnd root)
    rw [fetchPotential_init] at h1
    exact h1

/-- Diamond graph for the C3 witness: the leaf `do_x` is referenced by the
two distinct parent collections `do_1` and `do_2`. -/
def envD : Env :=
  [("do_r", .ok { mimeType := COLLECTION_MIME_TYPE, leafNodes := ["do_1", "do_2"] }),
   ("do_1", .ok { mimeType := COLLECTION_MIME_TYPE, leafNodes := ["do_x"] }),
   ("do_2", .ok { mimeType := COLLECTION_MIME_TYPE, leafNodes := ["do_x"] }),
   ("do_x", .ok { identifier := "x", mimeType := "application/pdf",
                  streamingUrl := some "ux" })]

/-- A complete legal schedule on the diamond graph at limit 2: both parents
fetch, the first spawned task for `do_x` fetches it, the second hits the
visited guard and exits, then everything joins. -/
def traceD : List Action :=
  [.fetchEnd 0, .start 1, .fetchEnd 1, .start 2, .fetchEnd 2, .start 3,
   .fetchEnd 3, .start 4, .joinEnd 1, .joinEnd 2, .joinEnd 0]

theorem reachD1 : Reach envD "do_r" "do_1" :=
  Reach.child Reach.root (by decide)

theorem reachDx : Reach envD "do_r" "do_x" :=
  Reach.child reachD1 (by decide)

/-- Witness for `sandbox_dedup_exactly_once` on the diamond graph: `do_x` is
fetched exactly once and contributes at most one leaf item. -/
theorem sandbox_dedup_exactly_once_witness :
    fetchEvents envD 2 "do_r" traceD "do_x" = 1 ∧
      appendEvents envD 2 (initConfig "do_r") traceD "do_x" ≤ 1 :=
  sandbox_dedup_exactly_once
    (c := (run envD 2 "do_r" traceD).getD (initConfig "do_r"))
    (by rfl) (by decide) reachDx

end SunbirdMCP
